import Mathlib

/-!
Shallow embedding of the BusTub storage-engine core:
clock replacer (src/buffer/clock_replacer.cpp),
buffer pool manager (src/buffer/buffer_pool_manager.cpp),
hash table block page (src/storage/page/hash_table_block_page.cpp),
hash table header page (src/storage/page/hash_table_header_page.cpp),
linear-probe hash table (src/container/hash/linear_probe_hash_table.cpp).

Keys and values are modelled as `Nat` (the `<int, int, IntComparator>`
instantiation); `BLOCK_ARRAY_SIZE` is the parameter `B`; the hash function
is the parameter `hf`.  Machine-level mutexes and latches are dropped: the
embedding models the serialized (single-caller) semantics of each operation.
-/

namespace Bustub

/-! ## Hash table block page (hash_table_block_page.cpp) -/

/-- One block page: `array_` of `(key, value)` pairs plus the `occupied_`
and `readable_` per-slot flag arrays (the code stores chars set to 1/0 and
compares with `== 1`; we model them as `Bool`). -/
structure Block where
  pairs : List (Nat × Nat)
  occ : List Bool
  readable : List Bool
deriving DecidableEq

instance : Inhabited Block := ⟨⟨[], [], []⟩⟩

/-- In-range read of `occupied_[i]` (used by the probe loops, where the
index is bounded by the loop guard). -/
def slotOcc (b : Block) (i : Nat) : Bool := b.occ.getD i false

/-- In-range read of `readable_[i]`. -/
def slotRd (b : Block) (i : Nat) : Bool := b.readable.getD i false

/-- In-range read of `array_[i].first`. -/
def keyAtD (b : Block) (i : Nat) : Nat := (b.pairs.getD i (0, 0)).1

/-- In-range read of `array_[i].second`. -/
def valAtD (b : Block) (i : Nat) : Nat := (b.pairs.getD i (0, 0)).2

/-- `BoundCheck(bucket_ind)`: false (after logging) iff `bucket_ind >= BLOCK_ARRAY_SIZE`. -/
def boundCheck (B i : Nat) : Bool := decide (i < B)

/-- `KeyAt(bucket_ind)`: returns `KeyType()` (0) when the bound check fails. -/
def keyAtM (B : Nat) (b : Block) (i : Nat) : Nat :=
  if boundCheck B i then keyAtD b i else 0

/-- `ValueAt(bucket_ind)`: returns `ValueType()` (0) when the bound check fails. -/
def valueAtM (B : Nat) (b : Block) (i : Nat) : Nat :=
  if boundCheck B i then valAtD b i else 0

/-- The unchecked write `array_[i] = (k, v); occupied_[i] = 1; readable_[i] = 1`. -/
def blockWrite (b : Block) (i k v : Nat) : Block :=
  ⟨b.pairs.set i (k, v), b.occ.set i true, b.readable.set i true⟩

/-- `Insert(bucket_ind, key, value)`: bound check, then fails if occupied,
else writes the pair and sets both flags. -/
def insertM (B : Nat) (b : Block) (i k v : Nat) : Bool × Block :=
  if ¬ boundCheck B i then (false, b)
  else if slotOcc b i then (false, b)
  else (true, blockWrite b i k v)

/-- `Remove(bucket_ind)`: bound check, then clears `readable_[i]` only
(`occupied_` keeps the tombstone). -/
def removeM (B : Nat) (b : Block) (i : Nat) : Block :=
  if ¬ boundCheck B i then b else ⟨b.pairs, b.occ, b.readable.set i false⟩

/-- `IsOccupied(bucket_ind)`: reads `occupied_[bucket_ind]` with no bound
check; `none` models the out-of-range memory access the C++ performs when
`bucket_ind >= BLOCK_ARRAY_SIZE`. -/
def isOccupiedM (b : Block) (i : Nat) : Option Bool := b.occ.get? i

/-- `IsReadable(bucket_ind)`: reads `readable_[bucket_ind]` with no bound check. -/
def isReadableM (b : Block) (i : Nat) : Option Bool := b.readable.get? i

/-! ## Clock replacer (clock_replacer.cpp) -/

/-- One entry of the `clock_` list: a frame id and the second-chance `ref` flag. -/
structure CSlot where
  fid : Nat
  ref : Bool
deriving DecidableEq

instance : Inhabited CSlot := ⟨⟨0, false⟩⟩

/-- The replacer state: the `std::list<Slot> clock_` and the index of the
`hand_` iterator into it (`slots.length` plays the role of `end()`). -/
structure ClockState where
  slots : List CSlot
  hand : Nat
deriving DecidableEq

/-- `Unpin(frame_id)`: `hand_ = clock_.insert(hand_, Slot(frame_id, true))` —
the slot is inserted before the hand unconditionally (no presence check) and
the hand moves to the new slot (same index). -/
def clockUnpin (f : Nat) (st : ClockState) : ClockState :=
  ⟨st.slots.take st.hand ++ ⟨f, true⟩ :: st.slots.drop st.hand, st.hand⟩

/-- `Size()`: `clock_.size()` (the over-capacity log does not change the result). -/
def clockSize (st : ClockState) : Nat := st.slots.length

/-- The write `hand_->ref = false` applied at index `i`. -/
def setRefFalse (st : ClockState) (i : Nat) : ClockState :=
  ⟨st.slots.set i ⟨(st.slots.getD i default).fid, false⟩, st.hand⟩

/-- `RemoveFrame(iter)` at the hand: erase at the hand, wrapping the hand to
`begin()` when it lands on `end()`. -/
def removeFrameAtHand (st : ClockState) : ClockState :=
  let slots' := st.slots.take st.hand ++ st.slots.drop (st.hand + 1)
  ⟨slots', if st.hand = slots'.length then 0 else st.hand⟩

/-- The `while (1)` body of `Victim`, fuelled.  The C++ condition
`if (hand_->ref = false)` is an assignment: it stores `false` into the slot's
`ref` and yields `false`, so the evict branch (kept here under
`if (false : Bool)`) is dead and every pass just clears `ref` and advances. -/
def clockVictimLoop : Nat → ClockState → Option (Nat × ClockState)
  | 0, _ => none
  | fuel + 1, st =>
    if st.hand ≥ st.slots.length then
      clockVictimLoop fuel ⟨st.slots, 0⟩
    else
      let st1 := setRefFalse st st.hand
      if (false : Bool) then
        some ((st1.slots.getD st1.hand default).fid, removeFrameAtHand st1)
      else
        let st2 := setRefFalse st1 st1.hand
        clockVictimLoop fuel ⟨st2.slots, st2.hand + 1⟩

/-- `Victim(frame_id)`: on an empty clock it returns false at once (the
`frame_id = nullptr` write only changes the local copy of the argument, so
the state and the caller's variable are untouched); otherwise it enters the
loop.  `some (none, st)` is "returned false", `some (some f, st)` would be
"returned true with frame f", `none` is "did not return within the fuel". -/
def clockVictim (fuel : Nat) (st : ClockState) : Option (Option Nat × ClockState) :=
  if st.slots.length = 0 then some (none, st)
  else (clockVictimLoop fuel st).map (fun p => (some p.1, p.2))

/-! ## Buffer pool manager (buffer_pool_manager.cpp), the part the claims
touch: `UnpinPageImpl` over the page table, the frame array and the replacer. -/

/-- One frame of `pages_`: resident page id (`INVALID_PAGE_ID = -1`),
`pin_count_` and `is_dirty_` (the payload plays no role in the claims). -/
structure Frame where
  pid : Int
  pin : Int
  dirty : Bool
deriving DecidableEq

instance : Inhabited Frame := ⟨⟨-1, 0, false⟩⟩

/-- Buffer pool state: `page_table_` (association list `page id → frame id`),
the `pages_` array, `free_list_`, and the owned clock replacer. -/
structure BPState where
  pt : List (Int × Nat)
  frames : List Frame
  freeList : List Nat
  rep : ClockState
deriving DecidableEq

/-- `page_table_[page_id]` with `std::unordered_map::operator[]` semantics:
a missing key is default-inserted as frame 0 (the caller-error path the code
does not guard against). -/
def ptIndex (pt : List (Int × Nat)) (p : Int) : Nat × List (Int × Nat) :=
  match pt.find? (fun e => e.1 == p) with
  | some e => (e.2, pt)
  | none => (0, pt ++ [(p, 0)])

/-- `UnpinPageImpl(page_id, is_dirty)`: looks the frame up, stores
`is_dirty_ = is_dirty` (a plain assignment, performed before the pin-count
check), returns false if `pin_count_ <= 0`, else decrements the pin count and
hands the frame to `replacer_->Unpin` when it reaches 0. -/
def unpinPage (st : BPState) (p : Int) (d : Bool) : Bool × BPState :=
  let pr := ptIndex st.pt p
  let fid := pr.1
  let f0 := st.frames.getD fid default
  let f1 : Frame := ⟨f0.pid, f0.pin, d⟩
  if f1.pin ≤ 0 then
    (false, ⟨pr.2, st.frames.set fid f1, st.freeList, st.rep⟩)
  else
    let f2 : Frame := ⟨f1.pid, f1.pin - 1, f1.dirty⟩
    let st' : BPState := ⟨pr.2, st.frames.set fid f2, st.freeList, st.rep⟩
    if f2.pin = 0 then (true, ⟨st'.pt, st'.frames, st'.freeList, clockUnpin fid st'.rep⟩)
    else (true, st')

/-! ## Hash table header page (hash_table_header_page.cpp) and the table
constructor's page allocation (linear_probe_hash_table.cpp, constructor). -/

/-- `AddBlockPageId(page_id)`: appends at `next_ind_` unless the header is
full (`next_ind_ >= MAX_BLOCK_NUM`, modelled by the bound `M`); we keep the
id list as a list whose length is `next_ind_`. -/
def addBlockPageId (M : Nat) (ids : List Int) (p : Int) : List Int :=
  if ids.length ≥ M then ids else ids ++ [p]

/-- Block-page allocation loop of the constructor: for
`i in [0, N / BLOCK_ARRAY_SIZE + 1)` obtain a fresh page id from the disk
manager (modelled as consecutive ids starting at `c1`, per the `AllocatePage`
interface contract) and record it with `AddBlockPageId`. -/
def constructBlocks (M : Nat) (c1 : Int) (cnt : Nat) : List Int :=
  (List.range cnt).foldl (fun ids (i : Nat) => addBlockPageId M ids (c1 + i)) []

/-- The constructor's page allocations: one `NewPage` for the header (id
`c0`), then `N / BLOCK_ARRAY_SIZE + 1` block pages with ids `c0+1, c0+2, …`
recorded in the header.  Returns (header page id, recorded block ids,
total pages allocated). -/
def constructTable (M : Nat) (c0 : Int) (N B : Nat) : Int × List Int × Nat :=
  (c0, constructBlocks M (c0 + 1) (N / B + 1), 1 + (N / B + 1))

/-! ## Linear-probe hash table (linear_probe_hash_table.cpp)

The header indirection (block page ids fetched through the buffer pool) is
collapsed: the table state carries `size_` and the list of block pages in
header order.  The probe loops are written with an explicit decreasing
counter; the inner loops run with counter `B - offset`, so an iteration
happens exactly when `offset < BLOCK_ARRAY_SIZE` and the slot is occupied.
(The C++ loop guard reads `IsOccupied(offset)` before checking
`offset < BLOCK_ARRAY_SIZE`; at `offset = BLOCK_ARRAY_SIZE` the loop exits
with the same offset whatever the unchecked read yields, so the control flow
modelled here is the one the code follows.) -/

/-- Table state: `size_` (logical capacity) and the block pages in header
order; `block_latches_.size()` and `header->NumBlocks()` both equal the
number of blocks. -/
structure TableState where
  size : Nat
  blocks : List Block
deriving DecidableEq

/-- `GetSlot(key)`: `idx = hash(key) % size_`, split into
`(idx / BLOCK_ARRAY_SIZE, idx % BLOCK_ARRAY_SIZE)`. -/
def getSlot (hf : Nat → Nat) (B N k : Nat) : Nat × Nat :=
  ((hf k % N) / B, (hf k % N) % B)

/-- The home block index of `key` in the current state. -/
def homeIdx (hf : Nat → Nat) (B : Nat) (st : TableState) (k : Nat) : Nat :=
  (getSlot hf B st.size k).1

/-- The home offset of `key` within its home block. -/
def homeOff (hf : Nat → Nat) (B : Nat) (st : TableState) (k : Nat) : Nat :=
  (getSlot hf B st.size k).2

/-- The home block of `key` in the current state. -/
def homeBlock (hf : Nat → Nat) (B : Nat) (st : TableState) (k : Nat) : Block :=
  st.blocks.getD (homeIdx hf B st k) default

/-- Inner loop of `GetValue` on one block: while occupied (and in range),
append `ValueAt(offset)` to the result when the slot is readable and the key
matches; return the exit offset and the grown result. -/
def scanG (B k : Nat) (b : Block) : Nat → Nat → List Nat → Nat × List Nat
  | 0, off, acc => (off, acc)
  | r + 1, off, acc =>
    if slotOcc b off then
      scanG B k b r (off + 1)
        (if slotRd b off && (keyAtD b off == k) then acc ++ [valAtD b off] else acc)
    else (off, acc)

/-- Outer loop of `GetValue`: while `block_idx < block_latches_.size()`,
scan the current block starting at the running `offset` (which is not reset
when moving to the next block) and stop as soon as the scan exits at an
offset `< BLOCK_ARRAY_SIZE` (a non-occupied slot). -/
def getGo (B k : Nat) (blocks : List Block) : Nat → Nat → Nat → List Nat → List Nat
  | 0, _, _, acc => acc
  | g + 1, bi, off, acc =>
    let p := scanG B k (blocks.getD bi default) (B - off) off acc
    if p.1 < B then p.2 else getGo B k blocks g (bi + 1) p.1 p.2

/-- `GetValue(transaction, key, result)`: probes from the key's home slot,
appending matches to the caller's vector, and returns `!result->empty()`. -/
def getValue (hf : Nat → Nat) (B : Nat) (st : TableState) (k : Nat)
    (res : List Nat) : Bool × List Nat :=
  let s := getSlot hf B st.size k
  let out := getGo B k st.blocks (st.blocks.length - s.1) s.1 s.2 res
  (!out.isEmpty, out)

/-- Inner loop of `InsertImpl` on one block: while occupied (and in range),
stop with `true` at an exact `(key, value)` duplicate that is readable;
otherwise return `false` and the exit offset. -/
def scanI (B k v : Nat) (b : Block) : Nat → Nat → Bool × Nat
  | 0, off => (false, off)
  | r + 1, off =>
    if slotOcc b off then
      if slotRd b off && (keyAtD b off == k) && (valAtD b off == v) then (true, off)
      else scanI B k v b r (off + 1)
    else (false, off)

/-- Outer loop of `InsertImpl`: a readable exact duplicate yields
`(false, false)` with the blocks untouched; a non-occupied slot before the
end of the block receives the pair through `block->Insert` and yields
`(true, false)`; running past the last block yields `(false, true)`
(needs resize).  The offset is not reset when moving to the next block. -/
def insertGo (B k v : Nat) (blocks : List Block) : Nat → Nat → Nat → (Bool × Bool) × List Block
  | 0, _, _ => ((false, true), blocks)
  | g + 1, bi, off =>
    let b := blocks.getD bi default
    let p := scanI B k v b (B - off) off
    if p.1 then ((false, false), blocks)
    else if p.2 < B then ((true, false), blocks.set bi (insertM B b p.2 k v).2)
    else insertGo B k v blocks g (bi + 1) p.2

/-- `InsertImpl(header, key, value)`: returns (success, needs-resize) and the
updated table. -/
def insertImpl (hf : Nat → Nat) (B : Nat) (st : TableState) (k v : Nat) :
    (Bool × Bool) × TableState :=
  let s := getSlot hf B st.size k
  let r := insertGo B k v st.blocks (st.blocks.length - s.1) s.1 s.2
  (r.1, ⟨st.size, r.2⟩)

/-- Inner loop of `Remove` on one block: while occupied (and in range), stop
with the offset of a readable exact `(key, value)` match, else return the
exit offset with `false`. -/
def scanR (B k v : Nat) (b : Block) : Nat → Nat → Bool × Nat
  | 0, off => (false, off)
  | r + 1, off =>
    if slotOcc b off then
      if slotRd b off && (keyAtD b off == k) && (valAtD b off == v) then (true, off)
      else scanR B k v b r (off + 1)
    else (false, off)

/-- `Remove(transaction, key, value)`: probes like `GetValue`; at a readable
exact match it calls `block->Remove(offset)` (clearing only `readable_`, a
tombstone) and returns true; at a non-occupied slot it returns false. -/
def removeGo (B k v : Nat) (blocks : List Block) : Nat → Nat → Nat → Bool × List Block
  | 0, _, _ => (false, blocks)
  | g + 1, bi, off =>
    let b := blocks.getD bi default
    let p := scanR B k v b (B - off) off
    if p.1 then (true, blocks.set bi (removeM B b p.2))
    else if p.2 < B then (false, blocks)
    else removeGo B k v blocks g (bi + 1) p.2

/-- `Remove` entry point over the table state. -/
def removeOp (hf : Nat → Nat) (B : Nat) (st : TableState) (k v : Nat) :
    Bool × TableState :=
  let s := getSlot hf B st.size k
  let r := removeGo B k v st.blocks (st.blocks.length - s.1) s.1 s.2
  (r.1, ⟨st.size, r.2⟩)

/-- A zeroed block page (`ResetMemory`): both flag arrays cleared,
`BLOCK_ARRAY_SIZE` default pairs. -/
def emptyBlock (B : Nat) : Block :=
  ⟨List.replicate B (0, 0), List.replicate B false, List.replicate B false⟩

/-- One block's share of `CleanUp`: the `(KeyAt, ValueAt)` pairs of its
readable slots, in offset order. -/
def cleanUpBlock (B : Nat) (b : Block) : List (Nat × Nat) :=
  ((List.range B).filter (fun i => slotRd b i)).map (fun i => (keyAtD b i, valAtD b i))

/-- `Resize(initial_size)` (the argument is unused by the body): `CleanUp`
collects every readable pair in block order and zeroes each block; `size_`
is doubled; blocks are appended until there are `size_ / BLOCK_ARRAY_SIZE + 1`;
each collected pair is re-inserted through `InsertImpl`, whose result the
code discards — we also return the list of those results. -/
def resizeOp (hf : Nat → Nat) (B : Nat) (st : TableState) :
    TableState × List (Bool × Bool) :=
  let pairs := st.blocks.foldl (fun acc b => acc ++ cleanUpBlock B b) []
  let cleared := st.blocks.map (fun _ => emptyBlock B)
  let n2 := st.size * 2
  let blocks1 := cleared ++ List.replicate (n2 / B + 1 - cleared.length) (emptyBlock B)
  pairs.foldl
    (fun pr kv =>
      let r := insertImpl hf B pr.1 kv.1 kv.2
      (r.2, pr.2 ++ [r.1]))
    ((⟨n2, blocks1⟩ : TableState), [])

/-- `Insert(transaction, key, value)`: run `InsertImpl`; while it reports
needs-resize, `Resize` and retry; fuelled (`none` = still looping after
`fuel` rounds). -/
def insertLoop (hf : Nat → Nat) (B k v : Nat) : Nat → TableState → Option (Bool × TableState)
  | 0, _ => none
  | fuel + 1, st =>
    let r := insertImpl hf B st k v
    if r.1.2 then insertLoop hf B k v fuel (resizeOp hf B r.2).1
    else some (r.1.1, r.2)

/-- The pair `(k, v)` is readable somewhere in the table. -/
def pairLive (B : Nat) (st : TableState) (k v : Nat) : Bool :=
  st.blocks.any (fun b =>
    (List.range B).any (fun i => slotRd b i && (keyAtD b i == k) && (valAtD b i == v)))

/-- No slot of the table is a tombstone (occupied and not readable). -/
def noTomb (B : Nat) (st : TableState) : Bool :=
  st.blocks.all (fun b => (List.range B).all (fun i => !(slotOcc b i && !slotRd b i)))

/-- Every block has its three arrays at length `BLOCK_ARRAY_SIZE`. -/
def blocksWF (B : Nat) (st : TableState) : Bool :=
  st.blocks.all (fun b =>
    (b.pairs.length == B) && (b.occ.length == B) && (b.readable.length == B))

/-- Every slot has `readable` equal to `occupied` (no tombstones and no
ill-formed readable-but-unoccupied slots); this is the shape `Resize`
re-establishes before re-inserting. -/
def rdEqOcc (B : Nat) (st : TableState) : Bool :=
  st.blocks.all (fun b => (List.range B).all (fun i => slotRd b i == slotOcc b i))

/-! ## Concrete states used by the witnesses and counterexamples
(pool of 2 blocks, `BLOCK_ARRAY_SIZE = 4` or `2`, hash = identity,
comparator = integer equality — the setup of the spec's §8 scenarios). -/

/-- The identity hash function of the §8 scenarios. -/
def idHash : Nat → Nat := fun x => x

/-- Fresh table, capacity 4, `BLOCK_ARRAY_SIZE = 4` (2 zeroed blocks). -/
def exTable : TableState := ⟨4, [emptyBlock 4, emptyBlock 4]⟩

/-- After `Insert(0, 10)`. -/
def exIns1 : TableState := (insertImpl idHash 4 exTable 0 10).2

/-- After `Insert(0, 10); Insert(4, 20)`. -/
def exIns2 : TableState := (insertImpl idHash 4 exIns1 4 20).2

/-- After `Insert(0, 10); Insert(4, 20); Insert(8, 30)` (slots 0, 1, 2). -/
def exIns3 : TableState := (insertImpl idHash 4 exIns2 8 30).2

/-- After the further `Remove(4, 20)`: slot 1 is now a tombstone. -/
def exRem : TableState := (removeOp idHash 4 exIns3 4 20).2

/-- After `Insert(5, 10)` into a fresh table (home slot 1). -/
def exKey5 : TableState := (insertImpl idHash 4 exTable 5 10).2

/-- After `Insert(7, 10)` into a fresh table (home slot 3, the block tail). -/
def exKey7 : TableState := (insertImpl idHash 4 exTable 7 10).2

/-- A block holding `(7, 10)` at offset 3 and nothing else. -/
def tailBlock : Block := (insertM 4 (emptyBlock 4) 3 7 10).2

/-- The table reached after `q`-fold growth while retrying `Insert(7, 20)`
over `exKey7`: capacity `4 * q`, with `(7, 10)` re-homed to block 1 offset 3
and every other slot empty. -/
def stuckTable (q : Nat) : TableState :=
  ⟨4 * q, emptyBlock 4 :: tailBlock :: List.replicate (q - 1) (emptyBlock 4)⟩

/-- Fresh table, capacity 3, `BLOCK_ARRAY_SIZE = 2` (2 zeroed blocks). -/
def exTable32 : TableState := ⟨3, [emptyBlock 2, emptyBlock 2]⟩

/-- After `Insert(3, 30); Insert(2, 10); Insert(2, 20)` at capacity 3,
`BLOCK_ARRAY_SIZE = 2`: block 0 holds `(3, 30)`, block 1 holds both pairs of
key 2 (multimap). -/
def exCrowded : TableState :=
  (insertImpl idHash 2
    (insertImpl idHash 2 ((insertImpl idHash 2 exTable32 3 30).2) 2 10).2 2 20).2

/-- A block (BLOCK_ARRAY_SIZE = 2) whose slot 1 is a tombstone. -/
def tombBlock : Block := ⟨[(0, 0), (1, 50)], [false, true], [false, false]⟩

/-- A block (BLOCK_ARRAY_SIZE = 2) holding `(1, 99)` live at offset 0. -/
def liveBlock : Block := ⟨[(1, 99), (0, 0)], [true, false], [true, false]⟩

/-- Capacity 4, `BLOCK_ARRAY_SIZE = 2`: key 1's home slot 1 is a tombstone
and `(1, 99)` is live at global slot 2 — the first slot of the next block. -/
def crossTable : TableState := ⟨4, [tombBlock, liveBlock, emptyBlock 2]⟩

/-- Buffer pool: page 1 resident in frame 0 with pin count 2, clean. -/
def exPool : BPState := ⟨[(1, 0)], [⟨1, 2, false⟩], [], ⟨[], 0⟩⟩

/-- Buffer pool: page 1 resident in frame 0 with pin count 0, dirty. -/
def exPoolZero : BPState := ⟨[(1, 0)], [⟨1, 0, true⟩], [], ⟨[], 0⟩⟩

/-! ## Theorems -/

/-- The `while (1)` body of `Victim` never returns, for any state and any
fuel: the would-be evict branch is guarded by the value of the assignment
`hand_->ref = false`, which is always false. -/
lemma clockVictimLoop_none : ∀ (fuel : Nat) (st : ClockState),
    clockVictimLoop fuel st = none := by
  intro fuel
  induction fuel with
  | zero => intro st; rfl
  | succ n ih =>
    intro st
    simp only [clockVictimLoop]
    split
    · exact ih _
    · simp only [Bool.false_eq_true, if_false]
      exact ih _

/-- C1: the claim states that `Victim` terminates with an eviction whenever
a candidate exists, and returns "empty" immediately on an empty set.  The
empty half holds, but on a non-empty clock the condition
`if (hand_->ref = false)` is an assignment whose value is always false, so
the evict branch is dead and `Victim` never returns (for every fuel the loop
is still spinning, each pass clearing `ref` and advancing the hand). -/
theorem clockVictim_never_evicts (fuel : Nat) (st : ClockState) :
    (st.slots = [] → clockVictim fuel st = some (none, st)) ∧
    (st.slots ≠ [] → clockVictim fuel st = none) := by
  constructor
  · intro h
    simp [clockVictim, h]
  · intro h
    have hl : st.slots.length ≠ 0 := fun hc => h (List.length_eq_zero.mp hc)
    simp [clockVictim, hl, clockVictimLoop_none]

/-- C1 witness: the empty clock returns "empty" at once with the state
untouched; a clock holding candidate frame 0 never returns. -/
theorem clockVictim_never_evicts_witness :
    clockVictim 5 ⟨[], 0⟩ = some (none, ⟨[], 0⟩) ∧
    clockVictim 5 ⟨[⟨0, true⟩], 0⟩ = none :=
  ⟨(clockVictim_never_evicts 5 ⟨[], 0⟩).1 rfl,
   (clockVictim_never_evicts 5 ⟨[⟨0, true⟩], 0⟩).2 (by decide)⟩

/-- C4 counterexample: `IsOccupied` and `IsReadable` perform no bound check;
at index `BLOCK_ARRAY_SIZE` (here 2) they read the flag arrays out of range
(`none` in the access model) instead of being a no-op or yielding a default
value, so not every block-page operation is bounds-checked. -/
theorem blockPage_unchecked_cex :
    isOccupiedM (emptyBlock 2) 2 = none ∧ isReadableM (emptyBlock 2) 2 = none := by
  decide

/-- C4 (amended): `KeyAt`, `ValueAt`, `Insert` and `Remove` are
bounds-checked — for every index `i ≥ BLOCK_ARRAY_SIZE` they return the
default value or leave the block untouched — but `IsOccupied` and
`IsReadable` index their arrays unconditionally and access out of range
there. -/
theorem blockPage_bounds (B : Nat) (b : Block) (i k v : Nat)
    (ho : b.occ.length = B) (hr : b.readable.length = B) (hi : B ≤ i) :
    keyAtM B b i = 0 ∧ valueAtM B b i = 0 ∧ insertM B b i k v = (false, b) ∧
    removeM B b i = b ∧ isOccupiedM b i = none ∧ isReadableM b i = none := by
  have hb : boundCheck B i = false := by
    simp only [boundCheck, decide_eq_false_iff_not]
    omega
  refine ⟨?_, ?_, ?_, ?_, ?_, ?_⟩
  · simp [keyAtM, hb]
  · simp [valueAtM, hb]
  · simp [insertM, hb]
  · simp [removeM, hb]
  · rw [isOccupiedM, List.get?_eq_none]
    omega
  · rw [isReadableM, List.get?_eq_none]
    omega

/-- C4 witness: the amended statement at `BLOCK_ARRAY_SIZE = 2`, index 2, on
a zeroed block. -/
theorem blockPage_bounds_witness :
    keyAtM 2 (emptyBlock 2) 2 = 0 ∧ valueAtM 2 (emptyBlock 2) 2 = 0 ∧
    insertM 2 (emptyBlock 2) 2 7 8 = (false, emptyBlock 2) ∧
    removeM 2 (emptyBlock 2) 2 = emptyBlock 2 ∧
    isOccupiedM (emptyBlock 2) 2 = none ∧ isReadableM (emptyBlock 2) 2 = none :=
  blockPage_bounds 2 (emptyBlock 2) 2 7 8 (by decide) (by decide) (by decide)

/-- C8 counterexample: `Unpin(0)` performed twice from the empty replacer
leaves frame 0 in the candidate list twice and `Size` reports 2 — `Unpin`
inserts unconditionally, with no presence check. -/
theorem clockUnpin_duplicate_cex :
    clockSize (clockUnpin 0 (clockUnpin 0 ⟨[], 0⟩)) = 2 ∧
    ((clockUnpin 0 (clockUnpin 0 ⟨[], 0⟩)).slots.filter
      (fun s => s.fid == 0)).length = 2 := by
  decide

/-- C8 (amended): `Unpin(f)` always inserts a slot `⟨f, ref = 1⟩` at the
hand position, whether or not `f` is already present: the clock grows by one
slot, the number of slots carrying `f` grows by one, and the hand index is
unchanged. -/
theorem clockUnpin_always_inserts (st : ClockState) (f : Nat)
    (h : st.hand ≤ st.slots.length) :
    clockSize (clockUnpin f st) = clockSize st + 1 ∧
    ((clockUnpin f st).slots.filter (fun s => s.fid == f)).length =
      (st.slots.filter (fun s => s.fid == f)).length + 1 ∧
    (clockUnpin f st).slots.getD st.hand default = ⟨f, true⟩ ∧
    (clockUnpin f st).hand = st.hand := by
  have hlen : (st.slots.take st.hand).length = st.hand := by
    simp [List.length_take]
    omega
  refine ⟨?_, ?_, ?_, rfl⟩
  · simp [clockSize, clockUnpin]
    omega
  · have hsplit := List.take_append_drop st.hand st.slots
    conv_rhs => rw [← hsplit]
    rw [List.filter_append, List.length_append]
    simp only [clockUnpin, List.filter_append, List.filter_cons]
    simp only [beq_self_eq_true, if_pos, List.length_append, List.length_cons]
    omega
  · simp only [clockUnpin]
    rw [List.getD_eq_getElem?_getD, List.getElem?_append_right hlen.le]
    simp [hlen]

/-- C8 witness: the amended statement on a one-slot clock already holding
frame 1, unpinning frame 0. -/
theorem clockUnpin_always_inserts_witness :
    clockSize (clockUnpin 0 ⟨[⟨1, false⟩], 1⟩) = 2 ∧
    ((clockUnpin 0 ⟨[⟨1, false⟩], 1⟩).slots.filter
      (fun s => s.fid == 0)).length =
      (([⟨1, false⟩] : List CSlot).filter (fun s => s.fid == 0)).length + 1 ∧
    (clockUnpin 0 ⟨[⟨1, false⟩], 1⟩).slots.getD 1 default = ⟨0, true⟩ ∧
    (clockUnpin 0 ⟨[⟨1, false⟩], 1⟩).hand = 1 :=
  clockUnpin_always_inserts ⟨[⟨1, false⟩], 1⟩ 0 (by decide)

/-- On a resident page the unpin path keeps the page table and the frame
count, and stores the `is_dirty` argument into the frame, whatever branch
is taken. -/
lemma unpinPage_found (st : BPState) (p : Int) (fid : Nat) (d : Bool)
    (hfind : st.pt.find? (fun e => e.1 == p) = some (p, fid))
    (hlen : fid < st.frames.length) :
    (unpinPage st p d).2.pt = st.pt ∧
    (unpinPage st p d).2.frames.length = st.frames.length ∧
    ((unpinPage st p d).2.frames.getD fid default).dirty = d := by
  have hset : ∀ (fr : Frame), (st.frames.set fid fr).getD fid default = fr := by
    intro fr
    rw [List.getD_eq_getElem?_getD, List.getElem?_set_self]
    · rfl
    · simpa using hlen
  simp only [unpinPage, ptIndex, hfind]
  split
  · exact ⟨rfl, by simp [List.length_set], by rw [hset]⟩
  · split
    · exact ⟨rfl, by simp [List.length_set], by rw [hset]⟩
    · exact ⟨rfl, by simp [List.length_set], by rw [hset]⟩

/-- C2 counterexample: page 1 resident in frame 0 with pin count 2 and a
clean frame; `UnpinPage(1, true)` then `UnpinPage(1, false)` leaves the
dirty flag false — the code stores `is_dirty_ = is_dirty` (plain
assignment), so a later false unpin does clear a previously set flag. -/
theorem unpinPage_sticky_cex :
    ¬ (((unpinPage (unpinPage exPool 1 true).2 1 false).2.frames.getD 0
        default).dirty = true) := by
  decide

/-- C2 (amended): the dirty flag is not sticky; `UnpinPage(p, d)` overwrites
the resident frame's dirty flag with `d` (plain assignment, performed even
before the pin-count check), so after `UnpinPage(p, true)` a later
`UnpinPage(p, false)` leaves the flag false. -/
theorem unpinPage_overwrites_dirty (st : BPState) (p : Int) (fid : Nat) (d : Bool)
    (hfind : st.pt.find? (fun e => e.1 == p) = some (p, fid))
    (hlen : fid < st.frames.length) :
    ((unpinPage st p d).2.frames.getD fid default).dirty = d ∧
    ((unpinPage (unpinPage st p true).2 p false).2.frames.getD fid
      default).dirty = false := by
  obtain ⟨h1pt, h1len, _⟩ := unpinPage_found st p fid true hfind hlen
  refine ⟨(unpinPage_found st p fid d hfind hlen).2.2, ?_⟩
  have hfind2 : (unpinPage st p true).2.pt.find? (fun e => e.1 == p) = some (p, fid) := by
    rw [h1pt]; exact hfind
  exact (unpinPage_found (unpinPage st p true).2 p fid false hfind2
    (h1len ▸ hlen)).2.2

/-- C2 witness: the amended statement on the concrete pool with page 1
pinned twice. -/
theorem unpinPage_overwrites_dirty_witness :
    ((unpinPage exPool 1 true).2.frames.getD 0 default).dirty = true ∧
    ((unpinPage (unpinPage exPool 1 true).2 1 false).2.frames.getD 0
      default).dirty = false :=
  unpinPage_overwrites_dirty exPool 1 0 true (by decide) (by decide)

/-- C3 counterexample: page 1 resident in frame 0 with pin count 0 and a
dirty frame; `UnpinPage(1, false)` returns false but does not leave the
state unchanged — the dirty flag has been overwritten before the pin-count
check. -/
theorem unpinPage_failure_mutates_cex :
    (unpinPage exPoolZero 1 false).1 = false ∧
    (unpinPage exPoolZero 1 false).2 ≠ exPoolZero := by
  decide

/-- C3 (amended): `UnpinPage` on a resident page whose pin count is ≤ 0
returns false and leaves the page table, the free list, the replacer and the
frame's pin count unchanged — but it first overwrites the frame's dirty flag
with the `is_dirty` argument, so the state is not left exactly as before. -/
theorem unpinPage_zero_pin (st : BPState) (p : Int) (fid : Nat) (d : Bool)
    (hfind : st.pt.find? (fun e => e.1 == p) = some (p, fid))
    (hpin : (st.frames.getD fid default).pin ≤ 0) :
    unpinPage st p d =
      (false, ⟨st.pt,
        st.frames.set fid ⟨(st.frames.getD fid default).pid,
          (st.frames.getD fid default).pin, d⟩,
        st.freeList, st.rep⟩) := by
  simp only [unpinPage, ptIndex, hfind]
  rw [if_pos hpin]

/-- C3 witness: the amended statement on the concrete pool with page 1 at
pin count 0 and the dirty flag initially set. -/
theorem unpinPage_zero_pin_witness :
    unpinPage exPoolZero 1 false =
      (false, ⟨[(1, 0)], [⟨1, 0, false⟩], [], ⟨[], 0⟩⟩) := by
  have h := unpinPage_zero_pin exPoolZero 1 0 false (by decide) (by decide)
  rw [h]
  decide

/-- The constructor's block-allocation loop records the consecutive ids it
is handed, in order, as long as the header cap is not reached. -/
lemma constructBlocks_spec : ∀ (cnt M : Nat) (c1 : Int), cnt ≤ M →
    constructBlocks M c1 cnt = (List.range cnt).map (fun (i : Nat) => c1 + (i : Int)) := by
  intro cnt
  induction cnt with
  | zero => intro M c1 _; rfl
  | succ n ih =>
    intro M c1 h
    have hn : constructBlocks M c1 n = (List.range n).map (fun (i : Nat) => c1 + (i : Int)) :=
      ih M c1 (by omega)
    simp only [constructBlocks, List.range_succ, List.foldl_append, List.foldl_cons,
      List.foldl_nil]
    rw [show ((List.range n).foldl (fun ids (i : Nat) => addBlockPageId M ids (c1 + i)) []) =
      constructBlocks M c1 n from rfl, hn, addBlockPageId]
    rw [if_neg (by simp; omega)]
    simp [List.range_succ]

/-- C9 counterexample: with `BLOCK_ARRAY_SIZE = 4` and initial capacity
`N = 4` (so `B` divides `N`) the constructor allocates 2 block pages —
`N / B + 1` — while the claim's ⌈N/B⌉ is 1. -/
theorem constructTable_count_cex :
    (constructTable 10 0 4 4).2.1.length = 2 ∧ (4 + 4 - 1) / 4 = 1 := by
  decide

/-- C9 (amended): constructing a table of capacity `N` allocates exactly one
header page plus exactly `N / BLOCK_ARRAY_SIZE + 1` block pages (one more
than ⌈N/B⌉ whenever `B` divides `N`), and their ids are recorded in
allocation order in the header. -/
theorem constructTable_allocations (N B M : Nat) (c0 : Int)
    (h : N / B + 1 ≤ M) :
    (constructTable M c0 N B).2.1 =
      (List.range (N / B + 1)).map (fun (i : Nat) => (c0 + 1) + (i : Int)) ∧
    (constructTable M c0 N B).2.1.length = N / B + 1 ∧
    (constructTable M c0 N B).2.2 = 1 + (N / B + 1) := by
  have hb := constructBlocks_spec (N / B + 1) M (c0 + 1) h
  exact ⟨hb, by rw [show (constructTable M c0 N B).2.1 =
    constructBlocks M (c0 + 1) (N / B + 1) from rfl, hb]; simp, rfl⟩

/-- C9 witness: the amended statement at `N = 4`, `B = 4`, cap 10, first
fresh page id 0: header page 0, block pages 1 and 2. -/
theorem constructTable_allocations_witness :
    (constructTable 10 0 4 4).2.1 = [1, 2] ∧
    (constructTable 10 0 4 4).2.1.length = 2 ∧
    (constructTable 10 0 4 4).2.2 = 1 + 2 := by
  have h := constructTable_allocations 4 4 10 0 (by decide)
  refine ⟨?_, h.2.1, h.2.2⟩
  rw [h.1]
  decide

/-- The inner `GetValue` scan only appends to its accumulator: the exit
offset ignores the accumulator and the result is the accumulator followed by
what a scan from an empty accumulator produces. -/
lemma scanG_acc (B k : Nat) (b : Block) : ∀ (r off : Nat) (acc : List Nat),
    scanG B k b r off acc =
      ((scanG B k b r off []).1, acc ++ (scanG B k b r off []).2) := by
  intro r
  induction r with
  | zero => intro off acc; simp [scanG]
  | succ n ih =>
    intro off acc
    simp only [scanG]
    cases hocc : slotOcc b off with
    | false => simp
    | true =>
      simp only [if_pos]
      cases hm : slotRd b off && (keyAtD b off == k) with
      | false =>
        simp only [Bool.false_eq_true, if_false]
        exact ih (off + 1) acc
      | true =>
        simp only [if_pos]
        rw [ih (off + 1) (acc ++ [valAtD b off]), ih (off + 1) ([] ++ [valAtD b off])]
        simp

/-- The outer `GetValue` loop only appends to its accumulator. -/
lemma getGo_acc (B k : Nat) (blocks : List Block) : ∀ (g bi off : Nat) (acc : List Nat),
    getGo B k blocks g bi off acc = acc ++ getGo B k blocks g bi off [] := by
  intro g
  induction g with
  | zero => intro bi off acc; simp [getGo]
  | succ n ih =>
    intro bi off acc
    simp only [getGo]
    rw [scanG_acc B k (blocks.getD bi default) (B - off) off acc]
    generalize scanG B k (blocks.getD bi default) (B - off) off [] = q
    obtain ⟨o, t⟩ := q
    by_cases h : o < B
    · simp [h]
    · simp only [h, if_false]
      rw [ih (bi + 1) o (acc ++ t), ih (bi + 1) o t]
      simp

/-- C10: `GetValue` appends its matches to the caller's result vector
without clearing it, and returns `!result->empty()` — so with a non-empty
initial vector it returns true even when nothing in the table matches. -/
theorem getValue_append_semantics (hf : Nat → Nat) (B : Nat) (st : TableState)
    (k : Nat) (res : List Nat) :
    (getValue hf B st k res).2 = res ++ (getValue hf B st k []).2 ∧
    (getValue hf B st k res).1 = !(getValue hf B st k res).2.isEmpty ∧
    (res ≠ [] → (getValue hf B st k res).1 = true) := by
  have happ : (getValue hf B st k res).2 = res ++ (getValue hf B st k []).2 := by
    simp only [getValue]
    exact getGo_acc B k st.blocks _ _ _ res
  refine ⟨happ, rfl, ?_⟩
  intro h
  have : (getValue hf B st k res).2 ≠ [] := by
    rw [happ]
    exact fun hc => h (List.append_eq_nil.mp hc).1
  show (!(getValue hf B st k res).2.isEmpty) = true
  simp [this]

/-- C10 witness: on a fresh table with no match for key 7, a call carrying a
non-empty initial result vector still returns true. -/
theorem getValue_append_semantics_witness :
    (getValue idHash 4 exTable 7 [99]).1 = true :=
  (getValue_append_semantics idHash 4 exTable 7 [99]).2.2 (by decide)

/-- The inner `GetValue` scan collects the value of a readable matching slot
`j` when every slot from the start offset up to `j` is occupied (tombstones
included): occupied slots never stop the scan. -/
lemma scanG_collects (B k : Nat) (b : Block) (v : Nat) :
    ∀ (r off j : Nat) (acc : List Nat),
      off ≤ j → j < off + r →
      (∀ m, off ≤ m → m ≤ j → slotOcc b m = true) →
      slotRd b j = true → keyAtD b j = k → valAtD b j = v →
      v ∈ (scanG B k b r off acc).2 := by
  intro r
  induction r with
  | zero => intro off j acc h1 h2 _ _ _ _; omega
  | succ n ih =>
    intro off j acc h1 h2 hocc hrd hk hv
    simp only [scanG]
    rw [hocc off (Nat.le_refl off) h1]
    simp only [if_pos]
    by_cases hoj : off = j
    · subst hoj
      rw [hrd, hk]
      simp only [beq_self_eq_true, Bool.true_and, if_pos]
      rw [scanG_acc]
      simp [hv]
    · have hlt : off < j := lt_of_le_of_ne h1 hoj
      exact ih (off + 1) j _ (by omega) (by omega)
        (fun m hm1 hm2 => hocc m (by omega) hm2) hrd hk hv

/-- A value collected while scanning the first probed block survives into
the final `GetValue` result. -/
lemma getGo_first_block (B k : Nat) (blocks : List Block) (g bi off v : Nat)
    (acc : List Nat)
    (hv : v ∈ (scanG B k (blocks.getD bi default) (B - off) off acc).2) :
    v ∈ getGo B k blocks (g + 1) bi off acc := by
  simp only [getGo]
  generalize hq : scanG B k (blocks.getD bi default) (B - off) off acc = q at hv ⊢
  obtain ⟨o, t⟩ := q
  by_cases h : o < B
  · simpa [h] using hv
  · simp only [h, if_false]
    rw [getGo_acc]
    exact List.mem_append.mpr (Or.inl hv)

/-- C7 counterexample: capacity 4 with `BLOCK_ARRAY_SIZE = 2`.  Key 1's home
slot (block 0, offset 1) is a tombstone and `(1, 99)` is live at the very
next slot (block 1, offset 0), so the claim's probe chain from the home slot
to the stored slot crosses only occupied slots — yet `GetValue(1)` misses
it: the probe offset is not reset to 0 when the scan moves to the next
block, so no slot of any later block is ever examined and probing does not
stop only at the first non-occupied slot. -/
theorem getValue_cross_block_cex :
    getSlot idHash 2 crossTable.size 1 = (0, 1) ∧
    slotOcc tombBlock 1 = true ∧ slotRd tombBlock 1 = false ∧
    slotRd liveBlock 0 = true ∧ keyAtD liveBlock 0 = 1 ∧ valAtD liveBlock 0 = 99 ∧
    ¬ (99 ∈ (getValue idHash 2 crossTable 1 []).2) := by
  decide

/-- C7 (amended): lookup probing continues past tombstones within the key's
home block and stops at the first non-occupied slot or at the end of that
block; because the probe offset is not reset when advancing to the next
block, slots of later blocks are never examined.  For every key live in its
home block (the only placement the insert path produces) with every slot
from its home offset to its stored slot occupied — tombstones included —
`GetValue` still returns that key's value; in particular `Remove(4, 20)`
then `GetValue(8)` still yields 30 across the tombstone. -/
theorem getValue_skips_tombstones (hf : Nat → Nat) (B : Nat) (st : TableState)
    (k v j : Nat)
    (hbi : (getSlot hf B st.size k).1 < st.blocks.length)
    (hoff : (getSlot hf B st.size k).2 ≤ j) (hjB : j < B)
    (hocc : ∀ m < j + 1, (getSlot hf B st.size k).2 ≤ m →
      slotOcc (st.blocks.getD (getSlot hf B st.size k).1 default) m = true)
    (hrd : slotRd (st.blocks.getD (getSlot hf B st.size k).1 default) j = true)
    (hk : keyAtD (st.blocks.getD (getSlot hf B st.size k).1 default) j = k)
    (hv : valAtD (st.blocks.getD (getSlot hf B st.size k).1 default) j = v) :
    v ∈ (getValue hf B st k []).2 := by
  obtain ⟨g, hg⟩ : ∃ g, st.blocks.length - (getSlot hf B st.size k).1 = g + 1 :=
    ⟨st.blocks.length - (getSlot hf B st.size k).1 - 1, by omega⟩
  show v ∈ getGo B k st.blocks (st.blocks.length - (getSlot hf B st.size k).1)
    (getSlot hf B st.size k).1 (getSlot hf B st.size k).2 []
  rw [hg]
  exact getGo_first_block B k st.blocks g _ _ v []
    (scanG_collects B k _ v (B - (getSlot hf B st.size k).2)
      (getSlot hf B st.size k).2 j [] hoff (by omega)
      (fun m hm1 hm2 => hocc m (by omega) hm1) hrd hk hv)

/-- C7 witness: the §8 scenario — insert `(0,10), (4,20), (8,30)` into a
capacity-4 table (home slot 0 for all three), remove `(4,20)` leaving a
tombstone at slot 1, and `GetValue(8)` still returns 30 from slot 2. -/
theorem getValue_skips_tombstones_witness :
    30 ∈ (getValue idHash 4 exRem 8 []).2 :=
  getValue_skips_tombstones idHash 4 exRem 8 30 2 (by decide) (by decide)
    (by decide) (by decide) (by decide) (by decide) (by decide)

/-- Setting then reading the same in-range index. -/
lemma getD_set_self {α : Type} (l : List α) (i : Nat) (a d : α)
    (h : i < l.length) : (l.set i a).getD i d = a := by
  rw [List.getD_eq_getElem?_getD, List.getElem?_set_self]
  · rfl
  · simpa using h

/-- Setting one index leaves the others unchanged. -/
lemma getD_set_other {α : Type} (l : List α) (i j : Nat) (a d : α)
    (h : i ≠ j) : (l.set i a).getD j d = l.getD j d := by
  rw [List.getD_eq_getElem?_getD, List.getElem?_set_ne h, List.getD_eq_getElem?_getD]

/-- Exhibiting a live pair at a concrete block and offset. -/
lemma pairLive_intro (B : Nat) (st : TableState) (k v bi j : Nat)
    (hbi : bi < st.blocks.length) (hj : j < B)
    (h1 : slotRd (st.blocks.getD bi default) j = true)
    (h2 : keyAtD (st.blocks.getD bi default) j = k)
    (h3 : valAtD (st.blocks.getD bi default) j = v) :
    pairLive B st k v = true := by
  unfold pairLive
  rw [List.any_eq_true]
  refine ⟨st.blocks.getD bi default, ?_, ?_⟩
  · rw [List.getD_eq_getElem?_getD, List.getElem?_eq_getElem hbi]
    exact List.getElem_mem hbi
  · rw [List.any_eq_true]
    exact ⟨j, List.mem_range.mpr hj, by rw [h1, h2, h3]; simp⟩

/-- The insert scan reports a duplicate when a readable exact match sits at
`j` and every slot from the start offset through `j` is occupied. -/
lemma scanI_finds (B k v : Nat) (b : Block) :
    ∀ (r off j : Nat), off ≤ j → j < off + r →
      (∀ m, off ≤ m → m ≤ j → slotOcc b m = true) →
      slotRd b j = true → keyAtD b j = k → valAtD b j = v →
      (scanI B k v b r off).1 = true := by
  intro r
  induction r with
  | zero => intro off j h1 h2 _ _ _ _; omega
  | succ n ih =>
    intro off j h1 h2 hocc hrd hk hv
    simp only [scanI]
    rw [hocc off (Nat.le_refl off) h1]
    simp only [if_pos]
    by_cases hoj : off = j
    · subst hoj
      rw [hrd, hk, hv]
      simp
    · have hlt : off < j := lt_of_le_of_ne h1 hoj
      by_cases hc : (slotRd b off && (keyAtD b off == k) && (valAtD b off == v)) = true
      · rw [if_pos hc]
      · rw [if_neg hc]
        exact ih (off + 1) j (by omega) (by omega)
          (fun m u w => hocc m (by omega) w) hrd hk hv

/-- The insert scan exits with `(false, j)` at the first non-occupied slot
`j` when no earlier slot of the chain holds a readable exact match. -/
lemma scanI_free (B k v : Nat) (b : Block) :
    ∀ (r off j : Nat), off ≤ j → j < off + r →
      (∀ m, off ≤ m → m < j → slotOcc b m = true ∧
        ¬(slotRd b m = true ∧ keyAtD b m = k ∧ valAtD b m = v)) →
      slotOcc b j = false →
      scanI B k v b r off = (false, j) := by
  intro r
  induction r with
  | zero => intro off j h1 h2 _ _; omega
  | succ n ih =>
    intro off j h1 h2 hpre hfree
    simp only [scanI]
    by_cases hoj : off = j
    · subst hoj
      rw [hfree]
      simp
    · have hlt : off < j := lt_of_le_of_ne h1 hoj
      obtain ⟨ho, hnd⟩ := hpre off (Nat.le_refl off) hlt
      rw [ho]
      simp only [if_pos]
      have hc : ¬ ((slotRd b off && (keyAtD b off == k) && (valAtD b off == v)) = true) := by
        intro hcon
        rw [Bool.and_eq_true, Bool.and_eq_true] at hcon
        exact hnd ⟨hcon.1.1, by simpa using hcon.1.2, by simpa using hcon.2⟩
      rw [if_neg hc]
      exact ih (off + 1) j (by omega) (by omega)
        (fun m u w => hpre m (by omega) w) hfree

/-- One outer step of `InsertImpl` when the scan finds a duplicate. -/
lemma insertGo_found (B k v : Nat) (blocks : List Block) (g bi off : Nat)
    (h : (scanI B k v (blocks.getD bi default) (B - off) off).1 = true) :
    insertGo B k v blocks (g + 1) bi off = ((false, false), blocks) := by
  simp only [insertGo]
  rw [if_pos h]

/-- One outer step of `InsertImpl` when the scan exits at a free in-range
slot: the pair is written there through `block->Insert`. -/
lemma insertGo_insert (B k v : Nat) (blocks : List Block) (g bi off j : Nat)
    (h : scanI B k v (blocks.getD bi default) (B - off) off = (false, j))
    (hj : j < B) :
    insertGo B k v blocks (g + 1) bi off =
      ((true, false), blocks.set bi (insertM B (blocks.getD bi default) j k v).2) := by
  simp only [insertGo, h]
  simp [hj]

/-- `InsertImpl` rejects, with the table untouched, when an exact duplicate
is readable in the home-block chain. -/
lemma insertImpl_dup (hf : Nat → Nat) (B : Nat) (st : TableState) (k v j : Nat)
    (hbi : homeIdx hf B st k < st.blocks.length)
    (hoff : homeOff hf B st k ≤ j) (hjB : j < B)
    (hocc : ∀ m < j + 1, homeOff hf B st k ≤ m → slotOcc (homeBlock hf B st k) m = true)
    (hrd : slotRd (homeBlock hf B st k) j = true)
    (hk : keyAtD (homeBlock hf B st k) j = k)
    (hv : valAtD (homeBlock hf B st k) j = v) :
    insertImpl hf B st k v = ((false, false), st) := by
  simp only [homeIdx, homeOff, homeBlock] at *
  obtain ⟨g, hg⟩ : ∃ g, st.blocks.length - (getSlot hf B st.size k).1 = g + 1 :=
    ⟨st.blocks.length - (getSlot hf B st.size k).1 - 1, by omega⟩
  have hfound : (scanI B k v (st.blocks.getD (getSlot hf B st.size k).1 default)
      (B - (getSlot hf B st.size k).2) (getSlot hf B st.size k).2).1 = true :=
    scanI_finds B k v _ _ _ j hoff (by omega)
      (fun m u w => hocc m (by omega) u) hrd hk hv
  show (let s := getSlot hf B st.size k
        let r := insertGo B k v st.blocks (st.blocks.length - s.1) s.1 s.2
        ((r.1, ⟨st.size, r.2⟩) : (Bool × Bool) × TableState)) = ((false, false), st)
  simp only [hg]
  rw [insertGo_found B k v st.blocks g _ _ hfound]

/-- `InsertImpl` succeeds, writing at the first free slot of the home-block
chain, when no exact duplicate precedes it. -/
lemma insertImpl_free (hf : Nat → Nat) (B : Nat) (st : TableState) (k v j : Nat)
    (hbi : homeIdx hf B st k < st.blocks.length)
    (hoff : homeOff hf B st k ≤ j) (hjB : j < B)
    (hpre : ∀ m < j, homeOff hf B st k ≤ m → slotOcc (homeBlock hf B st k) m = true ∧
      ¬(slotRd (homeBlock hf B st k) m = true ∧ keyAtD (homeBlock hf B st k) m = k ∧
        valAtD (homeBlock hf B st k) m = v))
    (hfree : slotOcc (homeBlock hf B st k) j = false) :
    insertImpl hf B st k v =
      ((true, false), ⟨st.size, st.blocks.set (homeIdx hf B st k)
        (insertM B (homeBlock hf B st k) j k v).2⟩) := by
  simp only [homeIdx, homeOff, homeBlock] at *
  obtain ⟨g, hg⟩ : ∃ g, st.blocks.length - (getSlot hf B st.size k).1 = g + 1 :=
    ⟨st.blocks.length - (getSlot hf B st.size k).1 - 1, by omega⟩
  have hscan : scanI B k v (st.blocks.getD (getSlot hf B st.size k).1 default)
      (B - (getSlot hf B st.size k).2) (getSlot hf B st.size k).2 = (false, j) :=
    scanI_free B k v _ _ _ j hoff (by omega)
      (fun m u w => hpre m (by omega) u) hfree
  show (let s := getSlot hf B st.size k
        let r := insertGo B k v st.blocks (st.blocks.length - s.1) s.1 s.2
        ((r.1, ⟨st.size, r.2⟩) : (Bool × Bool) × TableState)) =
    ((true, false), ⟨st.size, st.blocks.set (getSlot hf B st.size k).1
      (insertM B (st.blocks.getD (getSlot hf B st.size k).1 default) j k v).2⟩)
  simp only [hg]
  rw [insertGo_insert B k v st.blocks g _ _ j hscan hjB]

/-- Once the running offset has reached `BLOCK_ARRAY_SIZE`, every remaining
block is skipped without examining a single slot and the probe ends in
needs-resize: the offset is never reset. -/
lemma insertGo_off_ge (B k v : Nat) (blocks : List Block) :
    ∀ (g bi off : Nat), B ≤ off →
      insertGo B k v blocks g bi off = ((false, true), blocks) := by
  intro g
  induction g with
  | zero => intro bi off _; rfl
  | succ n ih =>
    intro bi off h
    simp only [insertGo]
    rw [Nat.sub_eq_zero_of_le h]
    simp only [scanI]
    rw [if_neg (by omega : ¬ off < B)]
    exact ih (bi + 1) off h

/-- Reading any index of a constant list with the same default. -/
lemma getD_replicate_self {α : Type} :
    ∀ (n i : Nat) (x : α), (List.replicate n x).getD i x = x := by
  intro n
  induction n with
  | zero => intro i x; cases i <;> rfl
  | succ m ih =>
    intro i x
    cases i with
    | zero => rfl
    | succ j => exact ih j x

/-- No slot of a zeroed block is occupied. -/
lemma slotOcc_empty (B i : Nat) : slotOcc (emptyBlock B) i = false := by
  simp only [slotOcc, emptyBlock]
  exact getD_replicate_self B i false

/-- No slot of a zeroed block is readable. -/
lemma slotRd_empty (B i : Nat) : slotRd (emptyBlock B) i = false := by
  simp only [slotRd, emptyBlock]
  exact getD_replicate_self B i false

/-- A zeroed block contributes nothing to `CleanUp`. -/
lemma cleanUpBlock_empty (B : Nat) : cleanUpBlock B (emptyBlock B) = [] := by
  unfold cleanUpBlock
  rw [List.filter_eq_nil_iff.mpr, List.map_nil]
  intro i _
  simp [slotRd_empty]

/-- Collecting over zeroed blocks adds nothing. -/
lemma collect_replicate_empty (B : Nat) :
    ∀ (m : Nat) (acc : List (Nat × Nat)),
      (List.replicate m (emptyBlock B)).foldl
        (fun acc b => acc ++ cleanUpBlock B b) acc = acc := by
  intro m
  induction m with
  | zero => intro acc; rfl
  | succ n ih =>
    intro acc
    rw [List.replicate_succ, List.foldl_cons, cleanUpBlock_empty, List.append_nil]
    exact ih acc

/-- Reading an in-range index of a constant list. -/
lemma getD_replicate_lt {α : Type} (n i : Nat) (x d : α) (h : i < n) :
    (List.replicate n x).getD i d = x := by
  rw [List.getD_eq_getElem?_getD, List.getElem?_replicate]
  simp [h]

/-- `InsertImpl (7, 20)` on a stuck table signals needs-resize and changes
nothing: the home chain (block 1, offsets 3..) is occupied to the end of the
block by `(7, 10)`. -/
lemma insertImpl_stuck (q : Nat) (hq : 2 ≤ q) :
    insertImpl idHash 4 (stuckTable q) 7 20 = ((false, true), stuckTable q) := by
  have hmod : 7 % (4 * q) = 7 := Nat.mod_eq_of_lt (by omega)
  have hslot : getSlot idHash 4 (stuckTable q).size 7 = (1, 3) := by
    simp [getSlot, stuckTable, idHash, hmod]
  have hlen : (stuckTable q).blocks.length = q + 1 := by
    simp [stuckTable]
    omega
  have hgo : insertGo 4 7 20 (stuckTable q).blocks ((q - 1) + 1) 1 3 =
      ((false, true), (stuckTable q).blocks) := by
    simp only [insertGo]
    have hb : (stuckTable q).blocks.getD 1 default = tailBlock := rfl
    rw [hb]
    have hscan : scanI 4 7 20 tailBlock (4 - 3) 3 = (false, 4) := by decide
    rw [hscan]
    simp only [Bool.false_eq_true, if_false]
    rw [if_neg (by omega : ¬ (4 : Nat) < 4)]
    exact insertGo_off_ge 4 7 20 _ (q - 1) 2 4 (by omega)
  show (let s := getSlot idHash 4 (stuckTable q).size 7
        let r := insertGo 4 7 20 (stuckTable q).blocks
          ((stuckTable q).blocks.length - s.1) s.1 s.2
        ((r.1, ⟨(stuckTable q).size, r.2⟩) : (Bool × Bool) × TableState)) =
    ((false, true), stuckTable q)
  rw [hslot]
  simp only [hlen]
  rw [show q + 1 - 1 = (q - 1) + 1 from by omega, hgo]

/-- `Resize` on a stuck table collects the lone pair `(7, 10)`, doubles the
capacity, and re-homes the pair to offset 3 of the doubled table's block 1 —
producing the stuck table of twice the size. -/
lemma resize_stuck (q : Nat) (hq : 2 ≤ q) :
    resizeOp idHash 4 (stuckTable q) = (stuckTable (2 * q), [(true, false)]) := by
  have ht : cleanUpBlock 4 tailBlock = [(7, 10)] := by decide
  have hlen : (stuckTable q).blocks.length = q + 1 := by
    simp [stuckTable]
    omega
  have hpairs : (stuckTable q).blocks.foldl
      (fun acc b => acc ++ cleanUpBlock 4 b) [] = [(7, 10)] := by
    show (emptyBlock 4 :: tailBlock :: List.replicate (q - 1) (emptyBlock 4)).foldl
      (fun acc b => acc ++ cleanUpBlock 4 b) [] = [(7, 10)]
    rw [List.foldl_cons, List.foldl_cons, cleanUpBlock_empty, ht]
    simp only [List.nil_append, List.append_nil]
    exact collect_replicate_empty 4 (q - 1) [(7, 10)]
  have hmap : (stuckTable q).blocks.map (fun _ => emptyBlock 4) =
      List.replicate (q + 1) (emptyBlock 4) := by
    rw [List.map_const', hlen]
  have hins : insertImpl idHash 4
      ⟨(stuckTable q).size * 2, List.replicate (2 * q + 1) (emptyBlock 4)⟩ 7 10 =
      ((true, false), stuckTable (2 * q)) := by
    have hsz : (stuckTable q).size * 2 = 4 * (2 * q) := by
      simp [stuckTable]
      ring
    have hmod2 : 7 % (4 * (2 * q)) = 7 := Nat.mod_eq_of_lt (by omega)
    have hhi : homeIdx idHash 4
        ⟨(stuckTable q).size * 2, List.replicate (2 * q + 1) (emptyBlock 4)⟩ 7 = 1 := by
      simp [homeIdx, getSlot, idHash, hsz, hmod2]
    have hho : homeOff idHash 4
        ⟨(stuckTable q).size * 2, List.replicate (2 * q + 1) (emptyBlock 4)⟩ 7 = 3 := by
      simp [homeOff, getSlot, idHash, hsz, hmod2]
    have hhb : homeBlock idHash 4
        ⟨(stuckTable q).size * 2, List.replicate (2 * q + 1) (emptyBlock 4)⟩ 7 =
        emptyBlock 4 := by
      simp only [homeBlock, hhi]
      exact getD_replicate_lt (2 * q + 1) 1 (emptyBlock 4) default (by omega)
    have hfr := insertImpl_free idHash 4
      ⟨(stuckTable q).size * 2, List.replicate (2 * q + 1) (emptyBlock 4)⟩ 7 10 3
      (by rw [hhi]; simp; omega)
      (by rw [hho]) (by omega)
      (by intro m hm1 hm2; rw [hho] at hm2; omega)
      (by rw [hhb]; exact slotOcc_empty 4 3)
    rw [hfr, hhi, hhb]
    have hset : (List.replicate (2 * q + 1) (emptyBlock 4)).set 1
        (insertM 4 (emptyBlock 4) 3 7 10).2 =
        emptyBlock 4 :: tailBlock :: List.replicate (2 * q - 1) (emptyBlock 4) := by
      rw [show 2 * q + 1 = (2 * q - 1) + 1 + 1 from by omega]
      simp only [List.replicate_succ]
      rfl
    rw [hset]
    show ((true, false), (⟨(stuckTable q).size * 2,
      emptyBlock 4 :: tailBlock :: List.replicate (2 * q - 1) (emptyBlock 4)⟩ : TableState)) = _
    rw [hsz]
    rfl
  simp only [resizeOp]
  rw [hpairs, hmap]
  have hrep : List.replicate (q + 1) (emptyBlock 4) ++
      List.replicate ((stuckTable q).size * 2 / 4 + 1 -
        (List.replicate (q + 1) (emptyBlock 4)).length) (emptyBlock 4) =
      List.replicate (2 * q + 1) (emptyBlock 4) := by
    rw [List.length_replicate,
      show (stuckTable q).size * 2 / 4 + 1 - (q + 1) = q from by simp [stuckTable]; omega,
      ← List.replicate_add]
    congr 1
    omega
  rw [hrep]
  simp only [List.foldl_cons, List.foldl_nil]
  simp [hins]

/-- The `Insert` resize-retry loop over a stuck table never returns: each
retry sees the home chain occupied to the block end, each resize re-creates
the stuck shape at twice the capacity. -/
lemma insertLoop_stuck : ∀ (fuel q : Nat), 2 ≤ q →
    insertLoop idHash 4 7 20 fuel (stuckTable q) = none := by
  intro fuel
  induction fuel with
  | zero => intro q _; rfl
  | succ n ih =>
    intro q hq
    simp only [insertLoop]
    rw [insertImpl_stuck q hq]
    simp only [if_pos]
    rw [resize_stuck q hq]
    exact ih (2 * q) (by omega)

/-- C6 counterexample: in a capacity-4 table holding `(7, 10)` at its home
slot 3 (the block tail), the distinct-value pair `(7, 20)` is not accepted:
`Insert` signals needs-resize (the chain is occupied to the block end and
probing never enters the next block), and the resize-retry loop never
terminates — after 100 rounds it is still running, because each resize
re-homes `(7, 10)` to the tail offset 3 of the doubled table.  So a distinct
value under the same key is not always accepted. -/
theorem insert_multimap_cex :
    pairLive 4 exKey7 7 10 = true ∧
    insertLoop idHash 4 7 20 100 exKey7 = none := by
  refine ⟨by decide, ?_⟩
  have h1 : insertImpl idHash 4 exKey7 7 20 = ((false, true), exKey7) := by decide
  have h2 : resizeOp idHash 4 exKey7 = (stuckTable 2, [(true, false)]) := by decide
  have h3 : insertLoop idHash 4 7 20 (99 + 1) exKey7 =
      insertLoop idHash 4 7 20 99 (stuckTable 2) := by
    show (if (insertImpl idHash 4 exKey7 7 20).1.2 = true then
        insertLoop idHash 4 7 20 99 (resizeOp idHash 4 (insertImpl idHash 4 exKey7 7 20).2).1
      else some ((insertImpl idHash 4 exKey7 7 20).1.1, (insertImpl idHash 4 exKey7 7 20).2)) =
      insertLoop idHash 4 7 20 99 (stuckTable 2)
    rw [h1]
    rw [if_pos (rfl : (((false, true), exKey7) : (Bool × Bool) × TableState).1.2 = true)]
    rw [show (((false, true), exKey7) : (Bool × Bool) × TableState).2 = exKey7 from rfl, h2]
  exact h3.trans (insertLoop_stuck 99 2 (by omega))

/-- C6 (amended): `Insert` rejects exact duplicates — if `(k, v)` is
readable in `k`'s home-block chain (every slot from the home offset through
it occupied, the placement the insert path always produces), `Insert(k, v)`
returns false and the table is unchanged, for any retry fuel.  A distinct
value `v` under the same key is accepted with the pair becoming live —
provided the chain reaches a non-occupied slot before the end of the home
block; when the home chain is occupied to the block end, `Insert` instead
signals needs-resize and the retry loop can run forever (see the
counterexample). -/
theorem insert_duplicate_policy (hf : Nat → Nat) (B : Nat) (st : TableState) (k : Nat) :
    (∀ v j fuel,
      homeIdx hf B st k < st.blocks.length →
      homeOff hf B st k ≤ j → j < B →
      (∀ m < j + 1, homeOff hf B st k ≤ m → slotOcc (homeBlock hf B st k) m = true) →
      slotRd (homeBlock hf B st k) j = true →
      keyAtD (homeBlock hf B st k) j = k →
      valAtD (homeBlock hf B st k) j = v →
      insertLoop hf B k v (fuel + 1) st = some (false, st)) ∧
    (∀ v j fuel,
      homeIdx hf B st k < st.blocks.length →
      homeOff hf B st k ≤ j → j < B →
      (homeBlock hf B st k).pairs.length = B →
      (homeBlock hf B st k).readable.length = B →
      (∀ m < j, homeOff hf B st k ≤ m → slotOcc (homeBlock hf B st k) m = true ∧
        ¬(slotRd (homeBlock hf B st k) m = true ∧ keyAtD (homeBlock hf B st k) m = k ∧
          valAtD (homeBlock hf B st k) m = v)) →
      slotOcc (homeBlock hf B st k) j = false →
      insertLoop hf B k v (fuel + 1) st =
        some (true, ⟨st.size, st.blocks.set (homeIdx hf B st k)
          (insertM B (homeBlock hf B st k) j k v).2⟩) ∧
      pairLive B ⟨st.size, st.blocks.set (homeIdx hf B st k)
        (insertM B (homeBlock hf B st k) j k v).2⟩ k v = true) := by
  constructor
  · intro v j fuel hbi hoff hjB hocc hrd hk hv
    have hd := insertImpl_dup hf B st k v j hbi hoff hjB hocc hrd hk hv
    simp only [insertLoop]
    rw [hd]
    simp
  · intro v j fuel hbi hoff hjB hpl hrl hpre hfree
    have hfr := insertImpl_free hf B st k v j hbi hoff hjB hpre hfree
    have hnb : (insertM B (homeBlock hf B st k) j k v).2 =
        blockWrite (homeBlock hf B st k) j k v := by
      rw [insertM, if_neg (by simp [boundCheck]; omega), if_neg (by simp [hfree])]
    constructor
    · simp only [insertLoop]
      rw [hfr]
      simp
    · apply pairLive_intro B _ k v (homeIdx hf B st k) j (by simpa using hbi) hjB
      all_goals
        rw [show (⟨st.size, st.blocks.set (homeIdx hf B st k)
            (insertM B (homeBlock hf B st k) j k v).2⟩ : TableState).blocks =
          st.blocks.set (homeIdx hf B st k)
            (insertM B (homeBlock hf B st k) j k v).2 from rfl,
          getD_set_self _ _ _ _ hbi, hnb]
      · show ((homeBlock hf B st k).readable.set j true).getD j false = true
        exact getD_set_self _ _ _ _ (by omega)
      · show (((homeBlock hf B st k).pairs.set j (k, v)).getD j (0, 0)).1 = k
        rw [getD_set_self _ _ _ _ (by omega)]
      · show (((homeBlock hf B st k).pairs.set j (k, v)).getD j (0, 0)).2 = v
        rw [getD_set_self _ _ _ _ (by omega)]

/-- C6 witness: with `(5, 10)` live at its home slot 1, re-inserting
`(5, 10)` is rejected with the table unchanged, while the distinct value
`(5, 20)` is accepted at slot 2 and becomes live. -/
theorem insert_duplicate_policy_witness :
    insertLoop idHash 4 5 10 1 exKey5 = some (false, exKey5) ∧
    insertLoop idHash 4 5 20 1 exKey5 =
      some (true, ⟨exKey5.size, exKey5.blocks.set (homeIdx idHash 4 exKey5 5)
        (insertM 4 (homeBlock idHash 4 exKey5 5) 2 5 20).2⟩) ∧
    pairLive 4 ⟨exKey5.size, exKey5.blocks.set (homeIdx idHash 4 exKey5 5)
      (insertM 4 (homeBlock idHash 4 exKey5 5) 2 5 20).2⟩ 5 20 = true := by
  refine ⟨(insert_duplicate_policy idHash 4 exKey5 5).1 10 1 0 (by decide) (by decide)
    (by decide) (by decide) (by decide) (by decide) (by decide), ?_, ?_⟩
  · exact ((insert_duplicate_policy idHash 4 exKey5 5).2 20 2 0 (by decide) (by decide)
      (by decide) (by decide) (by decide) (by decide) (by decide)).1
  · exact ((insert_duplicate_policy idHash 4 exKey5 5).2 20 2 0 (by decide) (by decide)
      (by decide) (by decide) (by decide) (by decide) (by decide)).2

/-- An in-range `getD` read is a member of the list. -/
lemma getD_mem {α : Type} (l : List α) (i : Nat) (d : α) (h : i < l.length) :
    l.getD i d ∈ l := by
  rw [List.getD_eq_getElem?_getD, List.getElem?_eq_getElem h]
  exact List.getElem_mem h

/-- A pointwise property of all `getD` reads holds of every member. -/
lemma forall_mem_of_forall_getD {α : Type} (l : List α) (d : α) (P : α → Prop)
    (h : ∀ i < l.length, P (l.getD i d)) : ∀ x ∈ l, P x := by
  intro x hx
  obtain ⟨i, hi, rfl⟩ := List.mem_iff_getElem.mp hx
  have hp := h i hi
  rwa [List.getD_eq_getElem?_getD, List.getElem?_eq_getElem hi] at hp

/-- Membership in an append-collecting fold. -/
lemma mem_foldl_append {α β : Type} (f : α → List β) :
    ∀ (l : List α) (acc : List β) (x : β),
      (x ∈ acc ∨ ∃ b ∈ l, x ∈ f b) →
      x ∈ l.foldl (fun acc b => acc ++ f b) acc := by
  intro l
  induction l with
  | nil =>
    intro acc x hx
    rcases hx with h | ⟨b, hb, _⟩
    · exact h
    · exact absurd hb (List.not_mem_nil b)
  | cons a l ih =>
    intro acc x hx
    rw [List.foldl_cons]
    apply ih
    rcases hx with h | ⟨b, hb, hf⟩
    · exact Or.inl (List.mem_append.mpr (Or.inl h))
    · rcases List.mem_cons.mp hb with rfl | hbl
      · exact Or.inl (List.mem_append.mpr (Or.inr hf))
      · exact Or.inr ⟨b, hbl, hf⟩

/-- Destructing a live pair into its block index and offset. -/
lemma pairLive_elim (B : Nat) (st : TableState) (k v : Nat)
    (h : pairLive B st k v = true) :
    ∃ bi j, bi < st.blocks.length ∧ j < B ∧
      slotRd (st.blocks.getD bi default) j = true ∧
      keyAtD (st.blocks.getD bi default) j = k ∧
      valAtD (st.blocks.getD bi default) j = v := by
  unfold pairLive at h
  rw [List.any_eq_true] at h
  obtain ⟨b, hb, hin⟩ := h
  rw [List.any_eq_true] at hin
  obtain ⟨j, hjr, hj⟩ := hin
  rw [Bool.and_eq_true, Bool.and_eq_true] at hj
  obtain ⟨i, hi, rfl⟩ := List.mem_iff_getElem.mp hb
  refine ⟨i, j, hi, List.mem_range.mp hjr, ?_, ?_, ?_⟩ <;>
    rw [List.getD_eq_getElem?_getD, List.getElem?_eq_getElem hi]
  · exact hj.1.1
  · exact beq_iff_eq.mp hj.1.2
  · exact beq_iff_eq.mp hj.2

/-- Reading the array lengths out of `blocksWF`. -/
lemma blocksWF_elim (B : Nat) (st : TableState) (h : blocksWF B st = true)
    (bi : Nat) (hbi : bi < st.blocks.length) :
    (st.blocks.getD bi default).pairs.length = B ∧
    (st.blocks.getD bi default).occ.length = B ∧
    (st.blocks.getD bi default).readable.length = B := by
  unfold blocksWF at h
  rw [List.all_eq_true] at h
  have hb := h _ (getD_mem st.blocks bi default hbi)
  rw [Bool.and_eq_true, Bool.and_eq_true] at hb
  exact ⟨beq_iff_eq.mp hb.1.1, beq_iff_eq.mp hb.1.2, beq_iff_eq.mp hb.2⟩

/-- Reading the slot flags equality out of `rdEqOcc`. -/
lemma rdEqOcc_elim (B : Nat) (st : TableState) (h : rdEqOcc B st = true)
    (bi : Nat) (hbi : bi < st.blocks.length) (j : Nat) (hj : j < B) :
    slotRd (st.blocks.getD bi default) j = slotOcc (st.blocks.getD bi default) j := by
  unfold rdEqOcc at h
  rw [List.all_eq_true] at h
  have hb := h _ (getD_mem st.blocks bi default hbi)
  rw [List.all_eq_true] at hb
  have hs := hb j (List.mem_range.mpr hj)
  exact beq_iff_eq.mp hs

/-- Establishing `blocksWF` pointwise. -/
lemma blocksWF_intro (B : Nat) (st : TableState)
    (h : ∀ bi < st.blocks.length,
      (st.blocks.getD bi default).pairs.length = B ∧
      (st.blocks.getD bi default).occ.length = B ∧
      (st.blocks.getD bi default).readable.length = B) :
    blocksWF B st = true := by
  unfold blocksWF
  rw [List.all_eq_true]
  refine forall_mem_of_forall_getD st.blocks default _ ?_
  intro i hi
  obtain ⟨h1, h2, h3⟩ := h i hi
  rw [Bool.and_eq_true, Bool.and_eq_true]
  exact ⟨⟨beq_iff_eq.mpr h1, beq_iff_eq.mpr h2⟩, beq_iff_eq.mpr h3⟩

/-- Establishing `rdEqOcc` pointwise. -/
lemma rdEqOcc_intro (B : Nat) (st : TableState)
    (h : ∀ bi < st.blocks.length, ∀ j < B,
      slotRd (st.blocks.getD bi default) j = slotOcc (st.blocks.getD bi default) j) :
    rdEqOcc B st = true := by
  unfold rdEqOcc
  rw [List.all_eq_true]
  refine forall_mem_of_forall_getD st.blocks default _ ?_
  intro i hi
  rw [List.all_eq_true]
  intro j hjr
  exact beq_iff_eq.mpr (h i hi j (List.mem_range.mp hjr))

/-- A table whose slots have `readable = occupied` everywhere has no
tombstone. -/
lemma noTomb_of_reo (B : Nat) (st : TableState) (h : rdEqOcc B st = true) :
    noTomb B st = true := by
  unfold noTomb
  rw [List.all_eq_true]
  refine forall_mem_of_forall_getD st.blocks default _ ?_
  intro i hi
  rw [List.all_eq_true]
  intro j hjr
  have := rdEqOcc_elim B st h i hi j (List.mem_range.mp hjr)
  rw [this]
  cases slotOcc (st.blocks.getD i default) j <;> rfl

/-- `block->Insert` on an in-range non-occupied slot performs the write. -/
lemma insertM_free_eq (B : Nat) (b : Block) (o k v : Nat) (ho : o < B)
    (hocc : slotOcc b o = false) :
    insertM B b o k v = (true, blockWrite b o k v) := by
  rw [insertM, if_neg (by simp [boundCheck]; omega), if_neg (by simp [hocc])]

/-- The insert scan's exit offset moves at most `r` slots. -/
lemma scanI_exit_le (B k v : Nat) (b : Block) :
    ∀ (r off : Nat), (scanI B k v b r off).2 ≤ off + r := by
  intro r
  induction r with
  | zero => intro off; exact Nat.le_refl off
  | succ n ih =>
    intro off
    simp only [scanI]
    by_cases hocc : slotOcc b off = true
    · rw [if_pos hocc]
      by_cases hm : (slotRd b off && (keyAtD b off == k) && (valAtD b off == v)) = true
      · rw [if_pos hm]
        omega
      · rw [if_neg hm]
        have := ih (off + 1)
        omega
    · rw [if_neg hocc]
      omega

/-- When the insert scan exits without a duplicate before exhausting its
counter, the exit slot is not occupied. -/
lemma scanI_exit_occ (B k v : Nat) (b : Block) :
    ∀ (r off : Nat), (scanI B k v b r off).1 = false →
      (scanI B k v b r off).2 < off + r →
      slotOcc b (scanI B k v b r off).2 = false := by
  intro r
  induction r with
  | zero =>
    intro off _ h2
    simp only [scanI] at h2
    omega
  | succ n ih =>
    intro off h1 h2
    simp only [scanI] at h1 h2 ⊢
    by_cases hocc : slotOcc b off = true
    · rw [if_pos hocc] at h1 h2 ⊢
      by_cases hm : (slotRd b off && (keyAtD b off == k) && (valAtD b off == v)) = true
      · rw [if_pos hm] at h1
        exact absurd h1 (by simp)
      · rw [if_neg hm] at h1 h2 ⊢
        exact ih (off + 1) h1 (by omega)
    · rw [if_neg hocc] at h1 h2 ⊢
      simpa using hocc

/-- A reported duplicate really is a readable exact match within the
scanned range. -/
lemma scanI_found (B k v : Nat) (b : Block) :
    ∀ (r off : Nat), (scanI B k v b r off).1 = true →
      ∃ o, off ≤ o ∧ o < off + r ∧ slotRd b o = true ∧
        keyAtD b o = k ∧ valAtD b o = v := by
  intro r
  induction r with
  | zero => intro off h; exact absurd h (by simp [scanI])
  | succ n ih =>
    intro off h
    simp only [scanI] at h
    by_cases hocc : slotOcc b off = true
    · rw [if_pos hocc] at h
      by_cases hm : (slotRd b off && (keyAtD b off == k) && (valAtD b off == v)) = true
      · rw [Bool.and_eq_true, Bool.and_eq_true] at hm
        exact ⟨off, Nat.le_refl off, by omega, hm.1.1, beq_iff_eq.mp hm.1.2,
          beq_iff_eq.mp hm.2⟩
      · rw [if_neg hm] at h
        obtain ⟨o, h1, h2, h3⟩ := ih (off + 1) h
        exact ⟨o, by omega, by omega, h3⟩
    · rw [if_neg hocc] at h
      exact absurd h (by simp)

/-- Complete case analysis of the `InsertImpl` probe loop: it either runs
off the table (needs resize, blocks untouched), stops at a readable exact
duplicate (blocks untouched), or writes the pair at an in-range non-occupied
slot of a real block. -/
lemma insertGo_cases (B k v : Nat) (blocks : List Block) :
    ∀ (g bi off : Nat), bi + g ≤ blocks.length → off ≤ B →
      (insertGo B k v blocks g bi off = ((false, true), blocks)) ∨
      (∃ i o, i < blocks.length ∧ o < B ∧ slotRd (blocks.getD i default) o = true ∧
        keyAtD (blocks.getD i default) o = k ∧ valAtD (blocks.getD i default) o = v ∧
        insertGo B k v blocks g bi off = ((false, false), blocks)) ∨
      (∃ i o, i < blocks.length ∧ o < B ∧ slotOcc (blocks.getD i default) o = false ∧
        insertGo B k v blocks g bi off =
          ((true, false), blocks.set i (insertM B (blocks.getD i default) o k v).2)) := by
  intro g
  induction g with
  | zero => intro bi off _ _; exact Or.inl rfl
  | succ n ih =>
    intro bi off hbg hoffB
    have hbi : bi < blocks.length := by omega
    have hstep : insertGo B k v blocks (n + 1) bi off =
        (if (scanI B k v (blocks.getD bi default) (B - off) off).1 = true
         then ((false, false), blocks)
         else if (scanI B k v (blocks.getD bi default) (B - off) off).2 < B
         then ((true, false), blocks.set bi (insertM B (blocks.getD bi default)
            (scanI B k v (blocks.getD bi default) (B - off) off).2 k v).2)
         else insertGo B k v blocks n (bi + 1)
            (scanI B k v (blocks.getD bi default) (B - off) off).2) := rfl
    by_cases hp : (scanI B k v (blocks.getD bi default) (B - off) off).1 = true
    · obtain ⟨o, ho1, ho2, ho3, ho4, ho5⟩ := scanI_found B k v _ _ _ hp
      refine Or.inr (Or.inl ⟨bi, o, hbi, by omega, ho3, ho4, ho5, ?_⟩)
      rw [hstep, if_pos hp]
    · have hp' : (scanI B k v (blocks.getD bi default) (B - off) off).1 = false := by
        simpa using hp
      by_cases ho : (scanI B k v (blocks.getD bi default) (B - off) off).2 < B
      · have hocc : slotOcc (blocks.getD bi default)
            (scanI B k v (blocks.getD bi default) (B - off) off).2 = false :=
          scanI_exit_occ B k v _ _ _ hp' (by omega)
        refine Or.inr (Or.inr ⟨bi, _, hbi, ho, hocc, ?_⟩)
        rw [hstep, if_neg hp, if_pos ho]
      · rw [hstep, if_neg hp, if_neg ho]
        have hle := scanI_exit_le B k v (blocks.getD bi default) (B - off) off
        exact ih (bi + 1) _ (by omega) (by omega)

/-- Case analysis lifted to `InsertImpl` over the table state. -/
lemma insertImpl_cases (hf : Nat → Nat) (B : Nat) (st : TableState) (k v : Nat)
    (hB : 0 < B) :
    (insertImpl hf B st k v = ((false, true), st)) ∨
    (∃ i o, i < st.blocks.length ∧ o < B ∧
      slotRd (st.blocks.getD i default) o = true ∧
      keyAtD (st.blocks.getD i default) o = k ∧
      valAtD (st.blocks.getD i default) o = v ∧
      insertImpl hf B st k v = ((false, false), st)) ∨
    (∃ i o, i < st.blocks.length ∧ o < B ∧
      slotOcc (st.blocks.getD i default) o = false ∧
      insertImpl hf B st k v = ((true, false),
        ⟨st.size, st.blocks.set i (insertM B (st.blocks.getD i default) o k v).2⟩)) := by
  have hred : insertImpl hf B st k v =
      ((insertGo B k v st.blocks (st.blocks.length - (getSlot hf B st.size k).1)
          (getSlot hf B st.size k).1 (getSlot hf B st.size k).2).1,
        ⟨st.size, (insertGo B k v st.blocks
          (st.blocks.length - (getSlot hf B st.size k).1)
          (getSlot hf B st.size k).1 (getSlot hf B st.size k).2).2⟩) := rfl
  have hoffB : (getSlot hf B st.size k).2 ≤ B :=
    le_of_lt (Nat.mod_lt _ hB)
  by_cases hbl : (getSlot hf B st.size k).1 ≤ st.blocks.length
  · rcases insertGo_cases B k v st.blocks
      (st.blocks.length - (getSlot hf B st.size k).1)
      (getSlot hf B st.size k).1 (getSlot hf B st.size k).2
      (by omega) hoffB with hc | ⟨i, o, h1, h2, h3, h4, h5, hc⟩ | ⟨i, o, h1, h2, h3, hc⟩
    · exact Or.inl (by rw [hred, hc])
    · exact Or.inr (Or.inl ⟨i, o, h1, h2, h3, h4, h5, by rw [hred, hc]⟩)
    · exact Or.inr (Or.inr ⟨i, o, h1, h2, h3, by rw [hred, hc]⟩)
  · have hz : st.blocks.length - (getSlot hf B st.size k).1 = 0 := by omega
    rw [hz] at hred
    exact Or.inl (by rw [hred]; rfl)

/-- `blockWrite` keeps all three array lengths. -/
lemma blockWrite_lengths (b : Block) (o k v : Nat) :
    (blockWrite b o k v).pairs.length = b.pairs.length ∧
    (blockWrite b o k v).occ.length = b.occ.length ∧
    (blockWrite b o k v).readable.length = b.readable.length := by
  refine ⟨?_, ?_, ?_⟩ <;> simp [blockWrite]

/-- The written slot is readable. -/
lemma slotRd_write_self (b : Block) (o k v : Nat) (h : o < b.readable.length) :
    slotRd (blockWrite b o k v) o = true := by
  simp only [slotRd, blockWrite]
  exact getD_set_self _ _ _ _ h

/-- Other slots keep their readable flag. -/
lemma slotRd_write_other (b : Block) (o k v j : Nat) (h : o ≠ j) :
    slotRd (blockWrite b o k v) j = slotRd b j := by
  simp only [slotRd, blockWrite]
  exact getD_set_other _ _ _ _ _ h

/-- The written slot is occupied. -/
lemma slotOcc_write_self (b : Block) (o k v : Nat) (h : o < b.occ.length) :
    slotOcc (blockWrite b o k v) o = true := by
  simp only [slotOcc, blockWrite]
  exact getD_set_self _ _ _ _ h

/-- Other slots keep their occupied flag. -/
lemma slotOcc_write_other (b : Block) (o k v j : Nat) (h : o ≠ j) :
    slotOcc (blockWrite b o k v) j = slotOcc b j := by
  simp only [slotOcc, blockWrite]
  exact getD_set_other _ _ _ _ _ h

/-- The written slot holds the new key. -/
lemma keyAtD_write_self (b : Block) (o k v : Nat) (h : o < b.pairs.length) :
    keyAtD (blockWrite b o k v) o = k := by
  simp only [keyAtD, blockWrite]
  rw [getD_set_self _ _ _ _ h]

/-- Other slots keep their key. -/
lemma keyAtD_write_other (b : Block) (o k v j : Nat) (h : o ≠ j) :
    keyAtD (blockWrite b o k v) j = keyAtD b j := by
  simp only [keyAtD, blockWrite]
  rw [getD_set_other _ _ _ _ _ h]

/-- The written slot holds the new value. -/
lemma valAtD_write_self (b : Block) (o k v : Nat) (h : o < b.pairs.length) :
    valAtD (blockWrite b o k v) o = v := by
  simp only [valAtD, blockWrite]
  rw [getD_set_self _ _ _ _ h]

/-- Other slots keep their value. -/
lemma valAtD_write_other (b : Block) (o k v j : Nat) (h : o ≠ j) :
    valAtD (blockWrite b o k v) j = valAtD b j := by
  simp only [valAtD, blockWrite]
  rw [getD_set_other _ _ _ _ _ h]

/-- One `InsertImpl` step on a well-formed tombstone-free table keeps it
well-formed and tombstone-free, keeps every live pair live, and — whenever
it does not signal needs-resize — leaves the inserted (or already present)
pair live. -/
lemma insertImpl_inv (hf : Nat → Nat) (B : Nat) (st : TableState) (k v : Nat)
    (hB : 0 < B) (hwf : blocksWF B st = true) (hreo : rdEqOcc B st = true) :
    blocksWF B (insertImpl hf B st k v).2 = true ∧
    rdEqOcc B (insertImpl hf B st k v).2 = true ∧
    (∀ k0 v0, pairLive B st k0 v0 = true →
      pairLive B (insertImpl hf B st k v).2 k0 v0 = true) ∧
    ((insertImpl hf B st k v).1.2 = false →
      pairLive B (insertImpl hf B st k v).2 k v = true) := by
  rcases insertImpl_cases hf B st k v hB with
    hc | ⟨i, o, h1, h2, h3, h4, h5, hc⟩ | ⟨i, o, h1, h2, h3, hc⟩
  · rw [hc]
    exact ⟨hwf, hreo, fun k0 v0 h => h, fun hcon => absurd hcon (by simp)⟩
  · rw [hc]
    exact ⟨hwf, hreo, fun k0 v0 h => h,
      fun _ => pairLive_intro B st k v i o h1 h2 h3 h4 h5⟩
  · obtain ⟨hpl, hol, hrl⟩ := blocksWF_elim B st hwf i h1
    have hnb : (insertM B (st.blocks.getD i default) o k v).2 =
        blockWrite (st.blocks.getD i default) o k v := by
      rw [insertM_free_eq B _ o k v h2 h3]
    rw [hc, hnb]
    have hgoalState : ∀ bi, bi ≠ i →
        ((⟨st.size, st.blocks.set i
          (blockWrite (st.blocks.getD i default) o k v)⟩ :
            TableState).blocks.getD bi default) = st.blocks.getD bi default := by
      intro bi hbi
      exact getD_set_other _ _ _ _ _ (fun hx => hbi hx.symm)
    have hgoalSelf :
        ((⟨st.size, st.blocks.set i
          (blockWrite (st.blocks.getD i default) o k v)⟩ :
            TableState).blocks.getD i default) =
          blockWrite (st.blocks.getD i default) o k v :=
      getD_set_self _ _ _ _ h1
    have hlen : (st.blocks.set i
        (blockWrite (st.blocks.getD i default) o k v)).length =
        st.blocks.length := List.length_set ..
    refine ⟨?_, ?_, ?_, ?_⟩
    · apply blocksWF_intro
      intro bi hbi
      rw [hlen] at hbi
      by_cases hbie : bi = i
      · subst hbie
        rw [hgoalSelf]
        obtain ⟨w1, w2, w3⟩ := blockWrite_lengths (st.blocks.getD bi default) o k v
        rw [w1, w2, w3]
        exact ⟨hpl, hol, hrl⟩
      · rw [hgoalState bi hbie]
        exact blocksWF_elim B st hwf bi hbi
    · apply rdEqOcc_intro
      intro bi hbi j hj
      rw [hlen] at hbi
      by_cases hbie : bi = i
      · subst hbie
        rw [hgoalSelf]
        by_cases hjo : j = o
        · subst hjo
          rw [slotRd_write_self _ _ _ _ (by omega),
            slotOcc_write_self _ _ _ _ (by omega)]
        · rw [slotRd_write_other _ _ _ _ _ (fun hx => hjo hx.symm),
            slotOcc_write_other _ _ _ _ _ (fun hx => hjo hx.symm)]
          exact rdEqOcc_elim B st hreo bi h1 j hj
      · rw [hgoalState bi hbie]
        exact rdEqOcc_elim B st hreo bi hbi j hj
    · intro k0 v0 h
      obtain ⟨bi, j, hb1, hb2, hb3, hb4, hb5⟩ := pairLive_elim B st k0 v0 h
      apply pairLive_intro B _ k0 v0 bi j (by rw [show (⟨st.size,
        st.blocks.set i (blockWrite (st.blocks.getD i default) o k v)⟩ :
          TableState).blocks = st.blocks.set i
          (blockWrite (st.blocks.getD i default) o k v) from rfl, hlen]; exact hb1) hb2
      all_goals by_cases hbie : bi = i
      · subst hbie
        rw [hgoalSelf]
        have hjo : j ≠ o := by
          intro hx
          subst hx
          rw [rdEqOcc_elim B st hreo bi h1 j hb2] at hb3
          rw [hb3] at h3
          exact Bool.true_eq_false.mp h3
        rw [slotRd_write_other _ _ _ _ _ (fun hx => hjo hx.symm)]
        exact hb3
      · rw [hgoalState bi hbie]
        exact hb3
      · subst hbie
        rw [hgoalSelf]
        have hjo : j ≠ o := by
          intro hx
          subst hx
          rw [rdEqOcc_elim B st hreo bi h1 j hb2] at hb3
          rw [hb3] at h3
          exact Bool.true_eq_false.mp h3
        rw [keyAtD_write_other _ _ _ _ _ (fun hx => hjo hx.symm)]
        exact hb4
      · rw [hgoalState bi hbie]
        exact hb4
      · subst hbie
        rw [hgoalSelf]
        have hjo : j ≠ o := by
          intro hx
          subst hx
          rw [rdEqOcc_elim B st hreo bi h1 j hb2] at hb3
          rw [hb3] at h3
          exact Bool.true_eq_false.mp h3
        rw [valAtD_write_other _ _ _ _ _ (fun hx => hjo hx.symm)]
        exact hb5
      · rw [hgoalState bi hbie]
        exact hb5
    · intro _
      apply pairLive_intro B _ k v i o (by rw [show (⟨st.size,
        st.blocks.set i (blockWrite (st.blocks.getD i default) o k v)⟩ :
          TableState).blocks = st.blocks.set i
          (blockWrite (st.blocks.getD i default) o k v) from rfl, hlen]; exact h1) h2
      · rw [hgoalSelf]
        exact slotRd_write_self _ _ _ _ (by omega)
      · rw [hgoalSelf]
        exact keyAtD_write_self _ _ _ _ (by omega)
      · rw [hgoalSelf]
        exact valAtD_write_self _ _ _ _ (by omega)

/-- The re-insertion fold of `Resize`: starting from a well-formed
tombstone-free table it stays well-formed and tombstone-free, keeps every
live pair live, appends one result per pair, and — when no step signalled
needs-resize — ends with every folded pair live. -/
lemma foldInsert_main (hf : Nat → Nat) (B : Nat) (hB : 0 < B) :
    ∀ (ps : List (Nat × Nat)) (s : TableState) (rs : List (Bool × Bool)),
      blocksWF B s = true → rdEqOcc B s = true →
      blocksWF B (ps.foldl (fun pr kv => ((insertImpl hf B pr.1 kv.1 kv.2).2,
        pr.2 ++ [(insertImpl hf B pr.1 kv.1 kv.2).1])) (s, rs)).1 = true ∧
      rdEqOcc B (ps.foldl (fun pr kv => ((insertImpl hf B pr.1 kv.1 kv.2).2,
        pr.2 ++ [(insertImpl hf B pr.1 kv.1 kv.2).1])) (s, rs)).1 = true ∧
      (∀ k0 v0, pairLive B s k0 v0 = true →
        pairLive B (ps.foldl (fun pr kv => ((insertImpl hf B pr.1 kv.1 kv.2).2,
          pr.2 ++ [(insertImpl hf B pr.1 kv.1 kv.2).1])) (s, rs)).1 k0 v0 = true) ∧
      ((∀ r ∈ (ps.foldl (fun pr kv => ((insertImpl hf B pr.1 kv.1 kv.2).2,
          pr.2 ++ [(insertImpl hf B pr.1 kv.1 kv.2).1])) (s, rs)).2, r.2 = false) →
        ∀ kv ∈ ps, pairLive B (ps.foldl (fun pr kv => ((insertImpl hf B pr.1 kv.1 kv.2).2,
          pr.2 ++ [(insertImpl hf B pr.1 kv.1 kv.2).1])) (s, rs)).1 kv.1 kv.2 = true) ∧
      (∃ t, (ps.foldl (fun pr kv => ((insertImpl hf B pr.1 kv.1 kv.2).2,
        pr.2 ++ [(insertImpl hf B pr.1 kv.1 kv.2).1])) (s, rs)).2 = rs ++ t) := by
  intro ps
  induction ps with
  | nil =>
    intro s rs hwf hreo
    exact ⟨hwf, hreo, fun _ _ h => h,
      fun _ kv hkv => absurd hkv (List.not_mem_nil kv),
      ⟨[], (List.append_nil rs).symm⟩⟩
  | cons kv ps ih =>
    intro s rs hwf hreo
    rw [List.foldl_cons]
    obtain ⟨hwf1, hreo1, hpres1, hsucc1⟩ := insertImpl_inv hf B s kv.1 kv.2 hB hwf hreo
    obtain ⟨ihwf, ihreo, ihpres, ihall, t, iht⟩ :=
      ih (insertImpl hf B s kv.1 kv.2).2 (rs ++ [(insertImpl hf B s kv.1 kv.2).1])
        hwf1 hreo1
    refine ⟨ihwf, ihreo, fun k0 v0 h => ihpres k0 v0 (hpres1 k0 v0 h), ?_,
      ⟨[(insertImpl hf B s kv.1 kv.2).1] ++ t, by rw [iht, List.append_assoc]⟩⟩
    intro hall kv' hkv'
    rcases List.mem_cons.mp hkv' with rfl | hmem
    · have hr1mem : (insertImpl hf B s kv'.1 kv'.2).1 ∈
          (ps.foldl (fun pr kv => ((insertImpl hf B pr.1 kv.1 kv.2).2,
            pr.2 ++ [(insertImpl hf B pr.1 kv.1 kv.2).1]))
            ((insertImpl hf B s kv'.1 kv'.2).2,
             rs ++ [(insertImpl hf B s kv'.1 kv'.2).1])).2 := by
        rw [iht]
        exact List.mem_append.mpr (Or.inl (List.mem_append.mpr
          (Or.inr (List.mem_singleton.mpr rfl))))
      exact ihpres kv'.1 kv'.2 (hsucc1 (hall _ hr1mem))
    · exact ihall hall kv' hmem

/-- A table whose blocks are all zeroed is well-formed with
`readable = occupied` everywhere. -/
lemma emptyBlocks_wf (B N : Nat) (blocks : List Block)
    (h : ∀ b ∈ blocks, b = emptyBlock B) :
    blocksWF B (⟨N, blocks⟩ : TableState) = true ∧
    rdEqOcc B (⟨N, blocks⟩ : TableState) = true := by
  constructor
  · apply blocksWF_intro
    intro bi hbi
    rw [h _ (getD_mem blocks bi default hbi)]
    simp [emptyBlock]
  · apply rdEqOcc_intro
    intro bi hbi j _
    rw [h _ (getD_mem blocks bi default hbi)]
    rw [slotRd_empty, slotOcc_empty]

/-- Every pair live before `CleanUp` appears in the collected vector. -/
lemma cleanUp_complete (B : Nat) (st : TableState) (k v : Nat)
    (h : pairLive B st k v = true) :
    (k, v) ∈ st.blocks.foldl (fun acc b => acc ++ cleanUpBlock B b) [] := by
  obtain ⟨bi, j, hbi, hj, hrd, hk, hv⟩ := pairLive_elim B st k v h
  apply mem_foldl_append (cleanUpBlock B) st.blocks [] (k, v)
  refine Or.inr ⟨st.blocks.getD bi default, getD_mem st.blocks bi default hbi, ?_⟩
  unfold cleanUpBlock
  rw [List.mem_map]
  exact ⟨j, List.mem_filter.mpr ⟨List.mem_range.mpr hj, hrd⟩, by rw [hk, hv]⟩

/-- The re-insertion fold never changes `size_`. -/
lemma foldInsert_size (hf : Nat → Nat) (B : Nat) :
    ∀ (ps : List (Nat × Nat)) (s : TableState) (rs : List (Bool × Bool)),
      (ps.foldl (fun pr kv => ((insertImpl hf B pr.1 kv.1 kv.2).2,
        pr.2 ++ [(insertImpl hf B pr.1 kv.1 kv.2).1])) (s, rs)).1.size = s.size := by
  intro ps
  induction ps with
  | nil => intro s rs; rfl
  | cons kv ps ih =>
    intro s rs
    rw [List.foldl_cons]
    exact (ih (insertImpl hf B s kv.1 kv.2).2
      (rs ++ [(insertImpl hf B s kv.1 kv.2).1])).trans rfl

/-- C5 counterexample: capacity 3 with `BLOCK_ARRAY_SIZE = 2`, holding
`(3, 30)` at block 0 slot 0 and the multimap pairs `(2, 10)`, `(2, 20)` at
block 1 (all placed by the insert path).  `Resize` doubles to capacity 6,
where all three pairs re-home to block 1 (slots 2 and 3): the third
re-insertion finds the home chain occupied to the block end, itself signals
needs-resize, and the pair `(2, 20)` — live before the resize — is silently
dropped. -/
theorem resize_drops_cex :
    pairLive 2 exCrowded 2 20 = true ∧
    pairLive 2 (resizeOp idHash 2 exCrowded).1 2 20 = false ∧
    (resizeOp idHash 2 exCrowded).2.any (fun r => r.2) = true := by
  decide

/-- C5 (amended): after `Resize` the logical capacity has doubled and no
tombstone remains anywhere (both bitmaps of every pre-existing block are
cleared and re-insertion writes only live slots); each collected pair is
re-inserted through the internal insert path, but that re-insertion can
itself signal needs-resize — its result is discarded and the pair dropped.
When no re-insertion signals needs-resize, every pair that was live before
`Resize` is live after it. -/
theorem resize_semantics (hf : Nat → Nat) (B : Nat) (st : TableState)
    (hB : 0 < B) :
    (resizeOp hf B st).1.size = 2 * st.size ∧
    noTomb B (resizeOp hf B st).1 = true ∧
    ((∀ r ∈ (resizeOp hf B st).2, r.2 = false) →
      ∀ k v, pairLive B st k v = true →
        pairLive B (resizeOp hf B st).1 k v = true) := by
  have hr : resizeOp hf B st =
      (st.blocks.foldl (fun acc b => acc ++ cleanUpBlock B b) []).foldl
        (fun pr kv => ((insertImpl hf B pr.1 kv.1 kv.2).2,
          pr.2 ++ [(insertImpl hf B pr.1 kv.1 kv.2).1]))
        ((⟨st.size * 2, st.blocks.map (fun _ => emptyBlock B) ++
          List.replicate (st.size * 2 / B + 1 -
            (st.blocks.map (fun _ => emptyBlock B)).length) (emptyBlock B)⟩ :
          TableState), []) := rfl
  have hempty : ∀ b ∈ st.blocks.map (fun _ => emptyBlock B) ++
      List.replicate (st.size * 2 / B + 1 -
        (st.blocks.map (fun _ => emptyBlock B)).length) (emptyBlock B),
      b = emptyBlock B := by
    intro b hb
    rcases List.mem_append.mp hb with h | h
    · obtain ⟨_, _, rfl⟩ := List.mem_map.mp h
      rfl
    · exact List.eq_of_mem_replicate h
  obtain ⟨hwf1, hreo1⟩ := emptyBlocks_wf B (st.size * 2) _ hempty
  obtain ⟨fwf, freo, fpres, fall, _⟩ := foldInsert_main hf B hB
    (st.blocks.foldl (fun acc b => acc ++ cleanUpBlock B b) []) _ [] hwf1 hreo1
  rw [hr]
  refine ⟨?_, noTomb_of_reo B _ freo, ?_⟩
  · rw [foldInsert_size]
    exact Nat.mul_comm st.size 2
  · intro hall k v hlive
    exact fall hall (k, v) (cleanUp_complete B st k v hlive)

/-- C5 witness: resizing the capacity-4 table holding `(0,10), (4,20),
(8,30)` (no re-insertion signals needs-resize there) doubles the capacity to
8, leaves no tombstone, and keeps `(8, 30)` live. -/
theorem resize_semantics_witness :
    (resizeOp idHash 4 exIns3).1.size = 2 * exIns3.size ∧
    noTomb 4 (resizeOp idHash 4 exIns3).1 = true ∧
    pairLive 4 (resizeOp idHash 4 exIns3).1 8 30 = true :=
  ⟨(resize_semantics idHash 4 exIns3 (by decide)).1,
   (resize_semantics idHash 4 exIns3 (by decide)).2.1,
   (resize_semantics idHash 4 exIns3 (by decide)).2.2 (by decide) 8 30 (by decide)⟩

end Bustub
